import Mathlib

/-!
Verification of the scheduling core of the BeyondGames timetable scheduler.

This file gives a shallow embedding, in Lean 4, of the Python scheduling core:

  models/course.py, models/professor.py, models/room.py, models/time_slot.py,
  models/schedule.py, schedulers/base.py, schedulers/constraint_satisfaction.py,
  schedulers/genetic.py

and proves properties of it.  Conventions used throughout:

* Python dictionaries and sets are modelled by insertion-ordered association
  lists and lists (membership-based, deduplicated on insertion).  Iteration
  order over a Python set is implementation defined; here it is the insertion
  order.  None of the proved properties depends on that order.
* Python floats are modelled by rationals; the numeric literals of the source
  are exact in decimal so the arithmetic is the same.
* The random module is modelled by an explicit stream of naturals (for
  random.choice / randint / sample) and a stream of rationals (for
  random.random); every result below holds for every stream.
* Python exceptions (ValueError from max on an empty sequence) are modelled by
  Option, with none as the raised exception.
* Recursion that the Python interpreter performs on the call stack is modelled
  with explicit fuel where noted; the fuel supplied by the top-level entry
  points is large enough for the recursion depth actually used by the source.
-/

namespace Timetable

/-! ## Data model: enums (course.py, room.py, time_slot.py, professor.py) -/

/-- CourseType enum from models/course.py. -/
inductive CourseType where
  | lecture
  | laboratory
  | tutorial
  | seminar
deriving DecidableEq, Repr, Inhabited

/-- RoomType enum from models/room.py. -/
inductive RoomType where
  | classroom
  | laboratory
  | computer_lab
  | seminar_hall
  | auditorium
  | tutorial_room
deriving DecidableEq, Repr, Inhabited

/-- RoomFeature enum from models/room.py. -/
inductive RoomFeature where
  | projector
  | whiteboard
  | blackboard
  | smart_board
  | computers
  | air_conditioning
  | audio_system
  | microphone
  | internet
  | power_outlets
  | laboratory_equipment
deriving DecidableEq, Repr, Inhabited

/-- DayOfWeek enum from models/time_slot.py. -/
inductive DayOfWeek where
  | monday
  | tuesday
  | wednesday
  | thursday
  | friday
  | saturday
  | sunday
deriving DecidableEq, Repr, Inhabited

/-- SlotType enum from models/time_slot.py (BREAK is spelled brk because
break is a Lean keyword). -/
inductive SlotType where
  | regular
  | brk
  | lunch
  | extended
deriving DecidableEq, Repr, Inhabited

/-- Availability enum from models/professor.py. -/
inductive Availability where
  | available
  | unavailable
  | preferred
  | not_preferred
deriving DecidableEq, Repr, Inhabited

/-! ## Data model: entities -/

/-- Course dataclass (models/course.py); only the fields the scheduling core
reads are kept.  capacity and credits are Python ints. -/
structure Course where
  id : String
  name : String
  code : String
  credits : Int
  duration : Int
  course_type : CourseType
  capacity : Int
  required_equipment : List String := []
  semester : Int := 1
  branch : String := "CSE"
deriving DecidableEq, Repr, Inhabited

/-- Professor dataclass (models/professor.py).  preferred_time_slots is the
Python dict time-slot id to Availability (association list, first match wins);
unavailable_slots is the Python set of slot ids. -/
structure Professor where
  id : String
  name : String
  department : String
  preferred_time_slots : List (String × Availability) := []
  unavailable_slots : List String := []
  is_active : Bool := true
deriving DecidableEq, Repr, Inhabited

/-- Room dataclass (models/room.py). -/
structure Room where
  id : String
  name : String
  capacity : Int
  room_type : RoomType
  features : List RoomFeature := []
  is_available : Bool := true
  maintenance_slots : List String := []
deriving DecidableEq, Repr, Inhabited

/-- TimeSlot dataclass (models/time_slot.py).  start_time is kept as
hour/minute; duration_minutes is stored already computed (the source computes
it in post-init when absent). -/
structure TimeSlot where
  id : String
  day : DayOfWeek
  start_hour : Nat
  start_minute : Nat
  slot_type : SlotType := .regular
  duration_minutes : Int
  is_active : Bool := true
deriving DecidableEq, Repr, Inhabited

/-- Assignment dataclass (models/schedule.py). -/
structure Assignment where
  id : String
  course_id : String
  professor_id : String
  room_id : String
  time_slot_id : String
  session_number : Int := 1
deriving DecidableEq, Repr, Inhabited

/-- Schedule dataclass (models/schedule.py); assignments is the
order-preserving list. -/
structure Schedule where
  id : String
  name : String
  assignments : List Assignment
  algorithm_used : Option String := none
deriving DecidableEq, Repr, Inhabited

/-! ## Entity methods used by the scheduling core -/

/-- Professor.can_teach_course.  The CSP scheduler calls it with the default
empty course_specialization, so the specialization branch of the source is
never taken and the method reduces to the is_active check. -/
def Professor.can_teach_course (p : Professor) (_course_code : String) : Bool :=
  p.is_active

/-- Dict.get with a default, for preferred_time_slots. -/
def lookupAvailability (m : List (String × Availability)) (k : String) : Availability :=
  match m.find? (fun kv => kv.1 = k) with
  | some kv => kv.2
  | none => Availability.available

/-- Professor.is_available_at (models/professor.py). -/
def Professor.is_available_at (p : Professor) (time_slot_id : String) : Bool :=
  if time_slot_id ∈ p.unavailable_slots then false
  else
    let availability := lookupAvailability p.preferred_time_slots time_slot_id
    availability = Availability.available ∨ availability = Availability.preferred

/-- Professor.get_preference_score (models/professor.py). -/
def Professor.get_preference_score (p : Professor) (time_slot_id : String) : ℚ :=
  if time_slot_id ∈ p.unavailable_slots then 0
  else
    match lookupAvailability p.preferred_time_slots time_slot_id with
    | Availability.preferred => 1
    | Availability.available => 0.5
    | _ => 0

/-- RoomFeature(value) coercion: the Python enum lookup over the feature
values; unknown strings raise ValueError in the source, modelled by none. -/
def roomFeatureOfString (s : String) : Option RoomFeature :=
  let t := s.toLower
  if t = "projector" then some .projector
  else if t = "whiteboard" then some .whiteboard
  else if t = "blackboard" then some .blackboard
  else if t = "smart_board" then some .smart_board
  else if t = "computers" then some .computers
  else if t = "air_conditioning" then some .air_conditioning
  else if t = "audio_system" then some .audio_system
  else if t = "microphone" then some .microphone
  else if t = "internet" then some .internet
  else if t = "power_outlets" then some .power_outlets
  else if t = "laboratory_equipment" then some .laboratory_equipment
  else none

/-- The recognized equipment features of a requirement list: the source
parses each string and silently skips the ones that are not enum values. -/
def recognizedFeatures (required_equipment : List String) : List RoomFeature :=
  required_equipment.filterMap roomFeatureOfString

/-- Room.has_all_features (models/room.py). -/
def Room.has_all_features (r : Room) (required : List RoomFeature) : Bool :=
  required.all (fun f => f ∈ r.features)

/-- Room.is_suitable_for_course (models/room.py).  The course_type string
argument of the source is always course.course_type.value, already lower
case, so it is taken as the enum directly. -/
def Room.is_suitable_for_course (r : Room) (course_type : CourseType)
    (required_capacity : Int) (required_equipment : List String) : Bool :=
  if ¬ r.is_available then false
  else if r.capacity < required_capacity then false
  else if course_type = CourseType.laboratory ∧
      ¬ (r.room_type = RoomType.laboratory ∨ r.room_type = RoomType.computer_lab) then false
  else if required_equipment.isEmpty then true
  else r.has_all_features (recognizedFeatures required_equipment)

/-- Room.is_available_at (models/room.py). -/
def Room.is_available_at (r : Room) (time_slot_id : String) : Bool :=
  r.is_available ∧ time_slot_id ∉ r.maintenance_slots

/-- Room.get_suitability_score (models/room.py). -/
def Room.get_suitability_score (r : Room) (course_type : CourseType)
    (capacity_needed : Int) (required_equipment : List String) : ℚ :=
  if ¬ r.is_suitable_for_course course_type capacity_needed required_equipment then 0
  else
    let score : ℚ := 0.5
    let score :=
      if course_type = CourseType.laboratory ∧
          (r.room_type = RoomType.laboratory ∨ r.room_type = RoomType.computer_lab) then
        score + 0.3
      else if course_type = CourseType.lecture ∧ r.room_type = RoomType.classroom then
        score + 0.3
      else score
    let score :=
      if 0 < capacity_needed then
        let ratio : ℚ := (capacity_needed : ℚ) / (r.capacity : ℚ)
        if 0.7 ≤ ratio ∧ ratio ≤ 0.9 then score + 0.2
        else if 0.9 < ratio then score + 0.1
        else score
      else score
    min score 1

/-- TimeSlot.can_accommodate_duration (models/time_slot.py). -/
def TimeSlot.can_accommodate_duration (ts : TimeSlot) (required_minutes : Int) : Bool :=
  required_minutes ≤ ts.duration_minutes

/-- TimeSlot.is_suitable_for_course_type (models/time_slot.py). -/
def TimeSlot.is_suitable_for_course_type (ts : TimeSlot) (course_type : CourseType) : Bool :=
  if ¬ ts.is_active then false
  else if ts.slot_type = SlotType.brk ∨ ts.slot_type = SlotType.lunch then false
  else if course_type = CourseType.laboratory then
    ts.slot_type = SlotType.regular ∨ ts.slot_type = SlotType.extended
  else ts.slot_type = SlotType.regular

/-- TimeSlot.get_time_preference_score (models/time_slot.py). -/
def TimeSlot.get_time_preference_score (ts : TimeSlot) : ℚ :=
  let hour := ts.start_hour
  if 9 ≤ hour ∧ hour < 12 then 1
  else if 12 ≤ hour ∧ hour < 14 then 0.8
  else if 14 ≤ hour ∧ hour < 17 then 0.6
  else if 8 ≤ hour ∧ hour < 9 then 0.4
  else 0.2

/-! ## Schedule conflict detection (models/schedule.py) -/

/-- The membership scan of Schedule.has_conflicts: walk the list of pairs,
carrying the set of pairs already seen, and report the first repeat. -/
def dupScan (l : List (String × String)) (seen : List (String × String)) : Bool :=
  match l with
  | [] => false
  | x :: xs => if x ∈ seen then true else dupScan xs (x :: seen)

/-- Schedule.has_conflicts: a professor double-booking (same professor id and
time slot id twice) or a room double-booking (same room id and time slot id
twice). -/
def Schedule.has_conflicts (s : Schedule) : Bool :=
  dupScan (s.assignments.map (fun a => (a.professor_id, a.time_slot_id))) [] ||
  dupScan (s.assignments.map (fun a => (a.room_id, a.time_slot_id))) []

/-- The keys of the Python grouping dict of Schedule.get_conflict_count, in
order of first occurrence. -/
def slotIdsInOrder (assignments : List Assignment) : List String :=
  assignments.foldl
    (fun acc a => if a.time_slot_id ∈ acc then acc else acc ++ [a.time_slot_id]) []

/-- The per-group conflict contribution of Schedule.get_conflict_count:
(number of assignments) - (distinct professors) + (number of assignments) -
(distinct rooms), with groups of at most one assignment skipped. -/
def slotGroupConflicts (assignments : List Assignment) (slot : String) : Nat :=
  let grp := assignments.filter (fun a => a.time_slot_id = slot)
  if grp.length ≤ 1 then 0
  else
    (grp.length - (grp.map (fun a => a.professor_id)).dedup.length) +
    (grp.length - (grp.map (fun a => a.room_id)).dedup.length)

/-- Schedule.get_conflict_count (models/schedule.py). -/
def Schedule.get_conflict_count (s : Schedule) : Nat :=
  ((slotIdsInOrder s.assignments).map (slotGroupConflicts s.assignments)).sum

/-! ## Schedule quality (schedulers/base.py, calculate_schedule_quality) -/

/-- The per-assignment score accumulated by calculate_schedule_quality: the
base 1.0 plus the three optional bonuses, each added only when the entity
lookups that guard it succeed (next(...) with default None in the source). -/
def assignmentScore (time_slots : List TimeSlot) (professors : List Professor)
    (rooms : List Room) (courses : List Course) (a : Assignment) : ℚ :=
  let tsOpt := time_slots.find? (fun ts => ts.id = a.time_slot_id)
  let profOpt := professors.find? (fun p => p.id = a.professor_id)
  let roomOpt := rooms.find? (fun r => r.id = a.room_id)
  let courseOpt := courses.find? (fun c => c.id = a.course_id)
  let s1 : ℚ := 1 +
    (match tsOpt with
     | some ts => ts.get_time_preference_score * 0.2
     | none => 0)
  let s2 : ℚ := s1 +
    (match profOpt, tsOpt with
     | some p, some _ => p.get_preference_score a.time_slot_id * 0.3
     | _, _ => 0)
  s2 +
    (match roomOpt, courseOpt with
     | some r, some c =>
       r.get_suitability_score c.course_type c.capacity c.required_equipment * 0.2
     | _, _ => 0)

/-- BaseScheduler.calculate_schedule_quality: 0.0 for an empty assignment
list, otherwise the average of the per-assignment scores. -/
def calculate_schedule_quality (s : Schedule) (time_slots : List TimeSlot)
    (professors : List Professor) (rooms : List Room) (courses : List Course) : ℚ :=
  if s.assignments.isEmpty then 0
  else
    (s.assignments.map (assignmentScore time_slots professors rooms courses)).sum /
      (s.assignments.length : ℚ)

/-! ## Shared scheduler input and preprocessing (schedulers/base.py) -/

/-- The input snapshot set on a scheduler with set_data. -/
structure SchedData where
  courses : List Course
  professors : List Professor
  rooms : List Room
  time_slots : List TimeSlot
deriving DecidableEq, Repr, Inhabited

/-- The Python string .value of a DayOfWeek, used as a sort key. -/
def dayValue : DayOfWeek → String
  | .monday => "monday"
  | .tuesday => "tuesday"
  | .wednesday => "wednesday"
  | .thursday => "thursday"
  | .friday => "friday"
  | .saturday => "saturday"
  | .sunday => "sunday"

/-- The Python string .value of a RoomType, used as a sort key. -/
def roomTypeValue : RoomType → String
  | .classroom => "classroom"
  | .laboratory => "laboratory"
  | .computer_lab => "computer_lab"
  | .seminar_hall => "seminar_hall"
  | .auditorium => "auditorium"
  | .tutorial_room => "tutorial_room"

/-- Stable insertion into a sorted list: the new element goes after every
element le-below-or-equal to it, so later elements of the input stay after
equal earlier ones. -/
def insertLe (le : α → α → Bool) (x : α) : List α → List α
  | [] => [x]
  | y :: ys => if le y x then y :: insertLe le x ys else x :: y :: ys

/-- Stable insertion sort.  Python list.sort / sorted is a stable sort, and
a stable sort's output is uniquely determined by the comparison (a total
preorder here) and the input, so this is the same function as the sort of
the source.  (A structural implementation is used so that terms evaluate by
kernel reduction.) -/
def stableSort (le : α → α → Bool) (l : List α) : List α :=
  l.foldl (fun acc x => insertLe le x acc) []

/-- Course sort comparison of preprocess_data: key (semester, -credits, code);
list.sort in Python is a stable sort, as is stableSort. -/
def courseLe (a b : Course) : Bool :=
  a.semester < b.semester ∨
    (a.semester = b.semester ∧
      (b.credits < a.credits ∨ (a.credits = b.credits ∧ a.code ≤ b.code)))

/-- Professor sort comparison of preprocess_data: key (department, name). -/
def professorLe (a b : Professor) : Bool :=
  a.department < b.department ∨ (a.department = b.department ∧ a.name ≤ b.name)

/-- Room sort comparison of preprocess_data: key (room_type.value, -capacity). -/
def roomLe (a b : Room) : Bool :=
  roomTypeValue a.room_type < roomTypeValue b.room_type ∨
    (roomTypeValue a.room_type = roomTypeValue b.room_type ∧ b.capacity ≤ a.capacity)

/-- Time-slot sort comparison of preprocess_data: key (day.value, start_time). -/
def timeSlotLe (a b : TimeSlot) : Bool :=
  dayValue a.day < dayValue b.day ∨
    (dayValue a.day = dayValue b.day ∧
      (a.start_hour < b.start_hour ∨
        (a.start_hour = b.start_hour ∧ a.start_minute ≤ b.start_minute)))

/-- BaseScheduler.preprocess_data: the four in-place sorts. -/
def preprocess_data (d : SchedData) : SchedData where
  courses := stableSort courseLe d.courses
  professors := stableSort professorLe d.professors
  rooms := stableSort roomLe d.rooms
  time_slots := stableSort timeSlotLe d.time_slots

/-! ## Constraint-satisfaction scheduler (schedulers/constraint_satisfaction.py) -/

namespace CSP

/-- Configuration of ConstraintSatisfactionScheduler, with the defaults of
its constructor. -/
structure Config where
  use_arc_consistency : Bool := true
  use_forward_checking : Bool := true
  variable_ordering : String := "mrv"
  value_ordering : String := "lcv"
deriving DecidableEq, Repr, Inhabited

/-- A CSP domain value: a (professor_id, room_id, time_slot_id) triple. -/
abbrev Value := String × String × String

/-- CSP domains: the Python dict course id to set of triples, as an
insertion-ordered association list of lists. -/
abbrev Domains := List (String × List Value)

/-- A partial CSP assignment: the Python dict course id to triple, in
insertion order. -/
abbrev PartialAsg := List (String × Value)

/-- _can_professor_teach_course. -/
def can_professor_teach_course (p : Professor) (c : Course) : Bool :=
  p.is_active ∧ p.department = c.branch ∧ p.can_teach_course c.code

/-- _can_room_host_course. -/
def can_room_host_course (r : Room) (c : Course) : Bool :=
  r.is_suitable_for_course c.course_type c.capacity c.required_equipment

/-- _can_schedule_at_time. -/
def can_schedule_at_time (c : Course) (p : Professor) (r : Room) (ts : TimeSlot) : Bool :=
  ts.is_suitable_for_course_type c.course_type ∧
  ts.can_accommodate_duration c.duration ∧
  p.is_available_at ts.id ∧
  r.is_available_at ts.id

/-- Deduplication that keeps first occurrences, modelling repeated
set.add in insertion order. -/
def listSet (l : List Value) : List Value :=
  l.foldl (fun acc v => if v ∈ acc then acc else acc ++ [v]) []

/-- The domain _initialize_domains builds for one course: every
(professor_id, room_id, time_slot_id) triple passing the three checks, from
the three nested loops. -/
def domainFor (d : SchedData) (c : Course) : List Value :=
  listSet <|
    (d.professors.filter (fun p => can_professor_teach_course p c)).flatMap fun p =>
      (d.rooms.filter (fun r => can_room_host_course r c)).flatMap fun r =>
        (d.time_slots.filter (fun ts => can_schedule_at_time c p r ts)).map fun ts =>
          (p.id, r.id, ts.id)

/-- Python dict write m[k] = v on an association list: overwrite in place if
the key exists (first occurrence), else append. -/
def dictSet (m : Domains) (k : String) (v : List Value) : Domains :=
  match m with
  | [] => [(k, v)]
  | (k', v') :: rest => if k' = k then (k, v) :: rest else (k', v') :: dictSet rest k v

/-- _initialize_domains: one domain per course. -/
def init_domains (d : SchedData) : Domains :=
  d.courses.foldl (fun doms c => dictSet doms c.id (domainFor d c)) []

/-- Dict lookup on domains (missing keys do not occur in runs of the source;
the total model returns the empty domain for them). -/
def lookupDom (doms : Domains) (k : String) : List Value :=
  match doms.find? (fun kv => kv.1 = k) with
  | some kv => kv.2
  | none => []

/-- _assignments_conflict: two triples conflict iff same slot and (same
professor or same room). -/
def assignments_conflict (v1 v2 : Value) : Bool :=
  if v1.2.2 = v2.2.2 then v1.1 = v2.1 ∨ v1.2.1 = v2.2.1 else false

/-- The in-place domain revision of _revise_domain: keep the triples of
course1 for which some triple of course2 is compatible. -/
def reviseList (d1 d2 : List Value) : List Value :=
  d1.filter (fun v1 => d2.any (fun v2 => ¬ assignments_conflict v1 v2))

/-- domains[c1] -= to_remove, replacing the first entry of key c1. -/
def setDom : Domains → String → List Value → Domains
  | [], _, _ => []
  | (k, dm) :: rest, c, nd => if k = c then (k, nd) :: rest else (k, dm) :: setDom rest c nd

/-- Total size of all domains; the termination measure of AC-3. -/
def totalSize (doms : Domains) : Nat := (doms.map (fun kv => kv.2.length)).sum

theorem lookupDom_cons (k : String) (dm : List Value) (rest : Domains) (c : String) :
    lookupDom ((k, dm) :: rest) c = if k = c then dm else lookupDom rest c := by
  by_cases hk : k = c <;> simp [lookupDom, List.find?_cons, hk]

theorem totalSize_setDom_lt (doms : Domains) (c : String) (nd : List Value)
    (h : nd.length < (lookupDom doms c).length) :
    totalSize (setDom doms c nd) < totalSize doms := by
  induction doms with
  | nil => simp [lookupDom, List.find?] at h
  | cons kv rest ih =>
    obtain ⟨k, dm⟩ := kv
    rw [lookupDom_cons] at h
    by_cases hk : k = c
    · subst hk
      rw [if_pos rfl] at h
      simp [setDom, totalSize]
      omega
    · rw [if_neg hk] at h
      have hrec := ih h
      simp [setDom, hk, totalSize] at *
      omega

/-- The work-queue loop of _apply_arc_consistency (AC-3): pop an arc, revise,
and on an actual revision either stop (domain emptied) or re-enqueue the arcs
into the revised course.  course_ids is the key list computed once at entry. -/
def ac3 (course_ids : List String) (queue : List (String × String)) (doms : Domains) :
    Domains :=
  match queue with
  | [] => doms
  | (c1, c2) :: rest =>
    let d1 := lookupDom doms c1
    let d1' := reviseList d1 (lookupDom doms c2)
    if h : d1'.length < d1.length then
      let doms' := setDom doms c1 d1'
      if d1'.isEmpty then doms'
      else
        ac3 course_ids
          (rest ++ (course_ids.filter (fun c3 => c3 ≠ c1 ∧ c3 ≠ c2)).map (fun c3 => (c3, c1)))
          doms'
    else ac3 course_ids rest doms
termination_by (totalSize doms, queue.length)
decreasing_by
  · exact Prod.Lex.left _ _ (totalSize_setDom_lt _ _ _ h)
  · exact Prod.Lex.right _ (by simp)

/-- The initial arc queue of _apply_arc_consistency: both directions of every
unordered pair, in the nested-loop order of the source. -/
def initialArcs : List String → List (String × String)
  | [] => []
  | c :: rest => (rest.flatMap (fun c2 => [(c, c2), (c2, c)])) ++ initialArcs rest

/-- _apply_arc_consistency. -/
def apply_arc_consistency (doms : Domains) : Domains :=
  let course_ids := doms.map (fun kv => kv.1)
  ac3 course_ids (initialArcs course_ids) doms

/-- First element minimizing f, as Python min(key=...) (ties keep the
earlier element). -/
def minByFirst (f : String → Nat) : List String → Option String
  | [] => none
  | x :: xs =>
    match minByFirst f xs with
    | none => some x
    | some y => if f y < f x then some y else some x

/-- _select_unassigned_variable: unassigned domain keys, by smallest domain
under mrv ordering, else the first. -/
def select_unassigned_variable (cfg : Config) (asg : PartialAsg) (doms : Domains) :
    Option String :=
  let unassigned := (doms.map (fun kv => kv.1)).filter
    (fun cid => ¬ asg.any (fun kv => kv.1 = cid))
  match unassigned with
  | [] => none
  | x :: xs =>
    if cfg.variable_ordering = "mrv" then minByFirst (fun cid => (lookupDom doms cid).length) (x :: xs)
    else some x

/-- _count_conflicts: how many values of the other domains the candidate
value conflicts with. -/
def count_conflicts (cid : String) (v : Value) (doms : Domains) : Nat :=
  (doms.map (fun kv =>
    if kv.1 = cid then 0 else (kv.2.filter (fun w => assignments_conflict v w)).length)).sum

/-- _order_domain_values: the domain as a list, sorted by induced conflicts
under lcv ordering (Python sorted, a stable sort). -/
def order_domain_values (cfg : Config) (cid : String) (doms : Domains) : List Value :=
  let values := lookupDom doms cid
  if cfg.value_ordering = "lcv" then
    stableSort (fun a b => count_conflicts cid a doms ≤ count_conflicts cid b doms) values
  else values

/-- _is_consistent: the candidate conflicts with no committed value. -/
def is_consistent (v : Value) (asg : PartialAsg) : Bool :=
  asg.all (fun kv => ¬ assignments_conflict v kv.2)

/-- _forward_check: pin the domain of the assigned course and drop
conflicting values everywhere else. -/
def forward_check (cid : String) (v : Value) (doms : Domains) : Domains :=
  doms.map (fun kv =>
    if kv.1 = cid then (kv.1, [v])
    else (kv.1, kv.2.filter (fun w => ¬ assignments_conflict v w)))

/-- _backtrack_search.  The Python recursion is modelled with fuel: each
recursive call adds one course to the partial assignment, so the
num_courses + 1 fuel given by the entry point is never exhausted. -/
def backtrack_search (cfg : Config) (num_courses : Nat) :
    Nat → PartialAsg → Domains → Option PartialAsg
  | 0, _, _ => none
  | fuel + 1, asg, doms =>
    if asg.length = num_courses then some asg
    else
      match select_unassigned_variable cfg asg doms with
      | none => some asg
      | some cid =>
        (order_domain_values cfg cid doms).findSome? fun v =>
          if is_consistent v asg then
            let newDoms := if cfg.use_forward_checking then forward_check cid v doms else doms
            if cfg.use_forward_checking ∧ newDoms.any (fun kv => kv.2.isEmpty) then none
            else backtrack_search cfg num_courses fuel (asg ++ [(cid, v)]) newDoms
          else none

/-- The domain setup and search of generate_schedule, after preprocessing. -/
def solve (cfg : Config) (d : SchedData) : Option PartialAsg :=
  let doms := init_domains d
  let doms := if cfg.use_arc_consistency then apply_arc_consistency doms else doms
  backtrack_search cfg d.courses.length (d.courses.length + 1) [] doms

/-- _solution_to_schedule. -/
def solution_to_schedule (sol : PartialAsg) : Schedule :=
  { id := "csp_solution"
    name := "CSP Generated Schedule"
    assignments := sol.map fun kv =>
      { id := kv.1 ++ "_" ++ kv.2.1 ++ "_" ++ kv.2.2.1 ++ "_" ++ kv.2.2.2
        course_id := kv.1
        professor_id := kv.2.1
        room_id := kv.2.2.1
        time_slot_id := kv.2.2.2 }
    algorithm_used := some "ConstraintSatisfactionScheduler" }

/-- The sentinel returned when no solution is found. -/
def failedSchedule : Schedule := { id := "failed", name := "No Solution Found", assignments := [] }

/-- ConstraintSatisfactionScheduler.generate_schedule.  The Python truthiness
test if solution: treats both None and the empty dict as failure. -/
def generate_schedule (cfg : Config) (d : SchedData) : Schedule :=
  let d := preprocess_data d
  match solve cfg d with
  | some sol => if sol.isEmpty then failedSchedule else solution_to_schedule sol
  | none => failedSchedule

end CSP

/-! ## Genetic scheduler (schedulers/genetic.py) -/

namespace GA

/-- Configuration of GeneticScheduler, with the defaults of its
constructor. -/
structure Config where
  population_size : Nat := 50
  generations : Nat := 100
  mutation_rate : ℚ := 0.1
  crossover_rate : ℚ := 0.8
  elite_size : Nat := 5
deriving DecidableEq, Repr, Inhabited

/-- The random module, modelled as explicit streams of draws: nats feeds
random.choice / random.randint / random.sample, rats feeds random.random.
Every theorem below holds for every stream. -/
structure Rng where
  nats : Nat → Nat
  rats : Nat → ℚ
  pos : Nat

/-- Draw one natural from the stream. -/
def Rng.nextNat (r : Rng) : Nat × Rng :=
  (r.nats r.pos, { r with pos := r.pos + 1 })

/-- Draw one random.random() value from the stream. -/
def Rng.nextRat (r : Rng) : ℚ × Rng :=
  (r.rats r.pos, { r with pos := r.pos + 1 })

/-- random.choice on a nonempty list (callers guard nonemptiness as the
source does; on the empty list the default is returned). -/
def Rng.choice [Inhabited α] (r : Rng) (l : List α) : α × Rng :=
  let (n, r) := r.nextNat
  (l.getD (n % l.length) default, r)

/-- random.randint a b (inclusive bounds). -/
def Rng.randint (r : Rng) (a b : Nat) : Nat × Rng :=
  let (n, r) := r.nextNat
  (a + n % (b - a + 1), r)

/-- _create_random_assignment: filter compatible professors (department
match only), suitable rooms and active time slots, return None when any
list is empty, else pick one of each at random. -/
def create_random_assignment (d : SchedData) (c : Course) (rng : Rng) :
    Option Assignment × Rng :=
  let aps := d.professors.filter (fun p => p.department = c.branch)
  let ars := d.rooms.filter
    (fun r => r.is_suitable_for_course c.course_type c.capacity c.required_equipment)
  let ats := d.time_slots.filter (fun ts => ts.is_active)
  if aps.isEmpty ∨ ars.isEmpty ∨ ats.isEmpty then (none, rng)
  else
    let (p, rng) := rng.choice aps
    let (r, rng) := rng.choice ars
    let (ts, rng) := rng.choice ats
    ( some
        { id := c.id ++ "_" ++ p.id ++ "_" ++ r.id ++ "_" ++ ts.id
          course_id := c.id
          professor_id := p.id
          room_id := r.id
          time_slot_id := ts.id },
      rng )

/-- _create_random_schedule: try one random assignment per course, skipping
the courses for which none can be formed. -/
def create_random_schedule (d : SchedData) (sid : String) (rng : Rng) :
    Schedule × Rng :=
  let (asgs, rng) := d.courses.foldl
    (fun acc c =>
      let (aOpt, rng) := create_random_assignment d c acc.2
      match aOpt with
      | some a => (acc.1 ++ [a], rng)
      | none => (acc.1, rng))
    (([] : List Assignment), rng)
  ({ id := sid, name := "Random Schedule " ++ sid, assignments := asgs }, rng)

/-- _initialize_population: population_size random schedules. -/
def init_population (d : SchedData) (cfg : Config) (rng : Rng) :
    List Schedule × Rng :=
  (List.range cfg.population_size).foldl
    (fun acc i =>
      let (s, rng) := create_random_schedule d ("individual_" ++ toString i) acc.2
      (acc.1 ++ [s], rng))
    (([] : List Schedule), rng)

/-- _calculate_fitness: 0.0 for an empty schedule, else the quality score
minus 1000 per counted conflict. -/
def calculate_fitness (d : SchedData) (s : Schedule) : ℚ :=
  if s.assignments.isEmpty then 0
  else
    calculate_schedule_quality s d.time_slots d.professors d.rooms d.courses -
      (s.get_conflict_count : ℚ) * 1000

/-- Helper of idxOfMax: scan with the best value and its first index so far. -/
def idxOfMaxAux : List ℚ → Nat → ℚ → Nat → Nat
  | [], bestIdx, _, _ => bestIdx
  | x :: xs, bestIdx, bestVal, i =>
    if bestVal < x then idxOfMaxAux xs i x (i + 1) else idxOfMaxAux xs bestIdx bestVal (i + 1)

/-- fitness_scores.index(max(fitness_scores)): the first index holding the
maximum (undefined in the source for an empty list; 0 here, never used). -/
def idxOfMax : List ℚ → Nat
  | [] => 0
  | x :: xs => idxOfMaxAux xs 0 x 1

/-- Helper of _tournament_selection: Python max(indices, key=...), keeping
the first maximal index. -/
def maxIdxByKey (f : Nat → ℚ) : List Nat → Nat
  | [] => 0
  | x :: xs => (xs.foldl (fun best i => if f best < f i then i else best) x)

/-- random.sample(range n, k), abstracted to k draws from the stream (the
distinctness of the real sample is irrelevant to every property proved
here). -/
def Rng.sampleIdx (r : Rng) (n : Nat) : Nat → List Nat × Rng
  | 0 => ([], r)
  | k + 1 =>
    let (x, r) := r.nextNat
    let (rest, r) := r.sampleIdx n k
    (x % n :: rest, r)

/-- _tournament_selection. -/
def tournament_selection (pop : List Schedule) (fits : List ℚ) (rng : Rng) :
    Schedule × Rng :=
  let k := min 3 pop.length
  let (idxs, rng) := rng.sampleIdx pop.length k
  let best := maxIdxByKey (fun i => fits.getD i 0) idxs
  (pop.getD best default, rng)

/-- _crossover: one cut point at half of parent1. -/
def crossover (p1 p2 : Schedule) (rng : Rng) : Schedule × Rng :=
  let cp := p1.assignments.length / 2
  let (n, rng) := rng.randint 1000 9999
  ( { id := "child_" ++ toString n
      name := "Crossover Child"
      assignments := p1.assignments.take cp ++ p2.assignments.drop cp },
    rng )

/-- _mutate: replace one randomly chosen assignment by a fresh random one
for its course (when the course is found and a fresh assignment can be
formed). -/
def mutate (d : SchedData) (s : Schedule) (rng : Rng) : Schedule × Rng :=
  if s.assignments.isEmpty then (s, rng)
  else
    let (idx, rng) := rng.randint 0 (s.assignments.length - 1)
    let a := s.assignments.getD idx default
    let (asgs, rng) :=
      match d.courses.find? (fun c => c.id = a.course_id) with
      | none => (s.assignments, rng)
      | some c =>
        let (naOpt, rng) := create_random_assignment d c rng
        match naOpt with
        | some na => (s.assignments.set idx na, rng)
        | none => (s.assignments, rng)
    let (n, rng) := rng.randint 1000 9999
    ({ id := "mutant_" ++ toString n, name := "Mutated Schedule", assignments := asgs }, rng)

/-- The child-producing while loop of _select_and_reproduce, appending one
child per iteration. -/
def breed (d : SchedData) (cfg : Config) (pop : List Schedule) (fits : List ℚ) :
    Nat → List Schedule → Rng → List Schedule × Rng
  | 0, acc, rng => (acc, rng)
  | need + 1, acc, rng =>
    let (p1, rng) := tournament_selection pop fits rng
    let (p2, rng) := tournament_selection pop fits rng
    let (r1, rng) := rng.nextRat
    let (child, rng) := if r1 < cfg.crossover_rate then crossover p1 p2 rng else (p1, rng)
    let (r2, rng) := rng.nextRat
    let (child, rng) := if r2 < cfg.mutation_rate then mutate d child rng else (child, rng)
    breed d cfg pop fits need (acc ++ [child]) rng

/-- _select_and_reproduce: elitism (stable descending sort of the indices by
fitness), then tournament/crossover/mutation children up to
population_size, then truncation. -/
def select_and_reproduce (d : SchedData) (cfg : Config) (pop : List Schedule)
    (fits : List ℚ) (rng : Rng) : List Schedule × Rng :=
  let elite_indices := (stableSort
    (fun i j => fits.getD j 0 ≤ fits.getD i 0) (List.range pop.length)).take cfg.elite_size
  let elites := elite_indices.map (fun i => pop.getD i default)
  let (newPop, rng) := breed d cfg pop fits (cfg.population_size - elites.length) elites rng
  (newPop.take cfg.population_size, rng)

/-- The state threaded through the generation loop of generate_schedule. -/
structure GState where
  population : List Schedule
  best_schedule : Option Schedule
  best_fitness : WithBot ℚ
  rng : Rng

/-- One iteration of the generation loop: evaluate fitness, track the best
individual (best_fitness starts at float -inf, modelled by the bottom of
WithBot), reproduce.  none models the ValueError Python raises from
max([]) when the population is empty. -/
def step (d : SchedData) (cfg : Config) (st : GState) : Option GState :=
  let fits := st.population.map (calculate_fitness d)
  match st.population with
  | [] => none
  | _ :: _ =>
    let idx := idxOfMax fits
    let curFit := fits.getD idx 0
    let best :=
      if (curFit : WithBot ℚ) > st.best_fitness then
        (some (st.population.getD idx default), (curFit : WithBot ℚ))
      else (st.best_schedule, st.best_fitness)
    let (newPop, rng) := select_and_reproduce d cfg st.population fits st.rng
    some
      { population := newPop
        best_schedule := best.1
        best_fitness := best.2
        rng := rng }

/-- The state before the first generation. -/
def initState (d : SchedData) (cfg : Config) (rng : Rng) : GState :=
  let (pop, rng) := init_population d cfg rng
  { population := pop, best_schedule := none, best_fitness := ⊥, rng := rng }

/-- The generation loop, iterated g times from the initial state. -/
def genSteps (d : SchedData) (cfg : Config) (rng : Rng) : Nat → Option GState
  | 0 => some (initState d cfg rng)
  | g + 1 => (genSteps d cfg rng g).bind (step d cfg)

/-- The sentinel the source builds when best_schedule is falsy (None or
without assignments). -/
def emptySchedule : Schedule := { id := "empty", name := "Empty Schedule", assignments := [] }

/-- GeneticScheduler.generate_schedule: preprocess, run the generation
loop, and return best_schedule or the empty sentinel (Python or-truthiness:
None and an empty Schedule are both falsy).  none models the ValueError
raised on an empty population. -/
def generate_schedule (cfg : Config) (dRaw : SchedData) (rng : Rng) : Option Schedule :=
  let d := preprocess_data dRaw
  match genSteps d cfg rng cfg.generations with
  | none => none
  | some st =>
    some
      (match st.best_schedule with
       | some s => if s.assignments.isEmpty then emptySchedule else s
       | none => emptySchedule)

end GA

/-! ## Spec-side formulas (transcribed from the specification wording, for
the refinement claims; to be compared with the code-side functions above) -/

/-- The conflict-count formula as the spec words it: for every time_slot_id
occurring in the schedule, (assignments with that slot - distinct
professor_ids among them) + (assignments with that slot - distinct
room_ids), summed, with no group skipped. -/
def specConflictCount (s : Schedule) : Nat :=
  (((s.assignments.map (fun a => a.time_slot_id)).dedup).map (fun u =>
    let grp := s.assignments.filter (fun a => a.time_slot_id = u)
    (grp.length - (grp.map (fun a => a.professor_id)).dedup.length) +
      (grp.length - (grp.map (fun a => a.room_id)).dedup.length))).sum

/-- The per-assignment score as the spec words it: 1.0 + 0.2 x the slot's
time-of-day preference + 0.3 x the assigned professor's preference score for
that slot + 0.2 x the assigned room's suitability score for the course.  The
referenced entities are the first list entries carrying the assignment's
ids (meaningful when they exist; the default is a placeholder). -/
def specAssignmentScore (time_slots : List TimeSlot) (professors : List Professor)
    (rooms : List Room) (courses : List Course) (a : Assignment) : ℚ :=
  let ts := (time_slots.find? (fun ts => ts.id = a.time_slot_id)).getD default
  let p := (professors.find? (fun p => p.id = a.professor_id)).getD default
  let r := (rooms.find? (fun r => r.id = a.room_id)).getD default
  let c := (courses.find? (fun c => c.id = a.course_id)).getD default
  1 + 0.2 * ts.get_time_preference_score +
    0.3 * p.get_preference_score a.time_slot_id +
    0.2 * r.get_suitability_score c.course_type c.capacity c.required_equipment

/-- The quality formula as the spec words it: the average of the
per-assignment scores. -/
def specQuality (s : Schedule) (time_slots : List TimeSlot) (professors : List Professor)
    (rooms : List Room) (courses : List Course) : ℚ :=
  (s.assignments.map (specAssignmentScore time_slots professors rooms courses)).sum /
    (s.assignments.length : ℚ)

/-! ## Observables of the genetic generation loop, for the temporal claims -/

/-- The tracked best fitness after g generations (none when the run has
raised before generation g). -/
def GA.bestFitAfter (d : SchedData) (cfg : GA.Config) (rng : GA.Rng) (g : Nat) :
    Option (WithBot ℚ) :=
  (GA.genSteps (preprocess_data d) cfg rng g).map (fun st => st.best_fitness)

/-- The tracked best individual at the end of the generation loop. -/
def GA.trackedBest (d : SchedData) (cfg : GA.Config) (rng : GA.Rng) : Option Schedule :=
  (GA.genSteps (preprocess_data d) cfg rng cfg.generations).bind (fun st => st.best_schedule)

/-! ## Concrete instances used by witnesses and counterexamples -/

def cA : Course where
  id := "c1"
  name := "Intro"
  code := "CS101"
  credits := 3
  duration := 60
  course_type := .lecture
  capacity := 60

def pA : Professor := { id := "p1", name := "Ada", department := "CSE" }

def rA : Room := { id := "r1", name := "R1", capacity := 60, room_type := .classroom }

def tA : TimeSlot where
  id := "t1"
  day := .monday
  start_hour := 9
  start_minute := 0
  duration_minutes := 60

def dataA : SchedData := { courses := [cA], professors := [pA], rooms := [rA], time_slots := [tA] }

/-- An active lunch slot: assignable by the genetic scheduler even though
break/lunch slots are meant to be unassignable. -/
def tLunch : TimeSlot where
  id := "tl"
  day := .monday
  start_hour := 12
  start_minute := 0
  slot_type := .lunch
  duration_minutes := 60

def dataLunch : SchedData :=
  { courses := [cA], professors := [pA], rooms := [rA], time_slots := [tLunch] }

/-- A fixed random stream for the concrete genetic runs. -/
def rng0 : GA.Rng := { nats := fun _ => 0, rats := fun _ => 0, pos := 0 }

/-- A one-individual one-generation genetic configuration. -/
def cfgGA1 : GA.Config :=
  { population_size := 1, generations := 1, mutation_rate := 0, crossover_rate := 0,
    elite_size := 1 }

/-- A zero-individual one-generation genetic configuration (the population
is empty). -/
def cfgGA0 : GA.Config :=
  { population_size := 0, generations := 1, mutation_rate := 0, crossover_rate := 0,
    elite_size := 1 }

/-- A CSP configuration with arc consistency off (so concrete runs reduce
by kernel computation). -/
def cfgCSP : CSP.Config := { use_arc_consistency := false }

/-- Scenario-A data with no professors: every domain is empty and the
search fails. -/
def dataNoProf : SchedData :=
  { courses := [cA], professors := [], rooms := [rA], time_slots := [tA] }

/-- An input with no entities at all, for the genetic witnesses. -/
def dataEmpty : SchedData :=
  { courses := [], professors := [], rooms := [], time_slots := [] }

/-- The assignment the CSP scheduler produces on scenario A. -/
def asgA : Assignment :=
  { id := "c1_p1_r1_t1", course_id := "c1", professor_id := "p1", room_id := "r1",
    time_slot_id := "t1" }

def aW1 : Assignment :=
  { id := "a1", course_id := "c1", professor_id := "p1", room_id := "r1",
    time_slot_id := "t1" }

def aW2 : Assignment :=
  { id := "a2", course_id := "c2", professor_id := "p1", room_id := "r2",
    time_slot_id := "t1" }

/-- A schedule with a professor double-booking. -/
def sConf : Schedule := { id := "s", name := "Conflicted", assignments := [aW1, aW2] }

/-- A schedule with no assignments. -/
def sEmptyW : Schedule := { id := "se", name := "Empty", assignments := [] }

/-- A one-assignment schedule whose referenced entities are all present in
the scenario-A collections. -/
def sQW : Schedule := { id := "sq", name := "Quality", assignments := [aW1] }

example : CSP.domainFor dataA cA = [("p1", "r1", "t1")] := by decide

example :
    (GA.generate_schedule cfgGA1 dataLunch rng0).map
      (fun s => s.assignments.map (fun a => a.time_slot_id)) = some ["tl"] := by decide

example : GA.generate_schedule cfgGA0 dataLunch rng0 = none := by decide

example : GA.bestFitAfter { courses := [], professors := [], rooms := [], time_slots := [] }
    cfgGA1 rng0 1 = some ((0 : ℚ) : WithBot ℚ) := by decide

/-! ## Conflict-detection lemmas (models/schedule.py) -/

theorem dupScan_eq_true {l seen : List (String × String)} :
    dupScan l seen = true ↔ ¬ l.Nodup ∨ ∃ x ∈ l, x ∈ seen := by
  induction l generalizing seen with
  | nil => simp [dupScan]
  | cons x xs ih =>
    by_cases hx : x ∈ seen
    · simp only [dupScan, if_pos hx]
      constructor
      · intro _
        exact Or.inr ⟨x, List.mem_cons_self x xs, hx⟩
      · intro _
        trivial
    · simp only [dupScan, if_neg hx, ih, List.nodup_cons]
      constructor
      · rintro (h | ⟨y, hy, hmem⟩)
        · exact Or.inl (fun hc => h hc.2)
        · rcases List.mem_cons.1 hmem with heq | hys
          · exact Or.inl (fun hc => hc.1 (heq ▸ hy))
          · exact Or.inr ⟨y, List.mem_cons_of_mem x hy, hys⟩
      · rintro (h | ⟨y, hy, hys⟩)
        · by_cases hxs : x ∈ xs
          · exact Or.inr ⟨x, hxs, List.mem_cons_self x seen⟩
          · exact Or.inl (fun hn => h ⟨hxs, hn⟩)
        · rcases List.mem_cons.1 hy with heq | hyxs
          · exact absurd (heq ▸ hys) hx
          · exact Or.inr ⟨y, hyxs, List.mem_cons_of_mem x hys⟩

theorem dupScan_nil_seen {l : List (String × String)} :
    dupScan l [] = true ↔ ¬ l.Nodup := by
  simp [dupScan_eq_true]

/-- has_conflicts is exactly: a repeated (professor, slot) pair or a
repeated (room, slot) pair. -/
theorem has_conflicts_iff_pairs (s : Schedule) :
    s.has_conflicts = true ↔
      ¬ (s.assignments.map (fun a => (a.professor_id, a.time_slot_id))).Nodup ∨
      ¬ (s.assignments.map (fun a => (a.room_id, a.time_slot_id))).Nodup := by
  simp [Schedule.has_conflicts, dupScan_nil_seen]

/-- A mapped list fails Nodup exactly when two distinct positions have equal
images. -/
theorem not_nodup_map_iff {α β : Type} [DecidableEq β] (l : List α) (f : α → β) :
    ¬ (l.map f).Nodup ↔
      ∃ i j, i ≠ j ∧ ∃ (hi : i < l.length) (hj : j < l.length),
        f (l.get ⟨i, hi⟩) = f (l.get ⟨j, hj⟩) := by
  rw [List.nodup_iff_injective_get]
  constructor
  · intro h
    rw [Function.not_injective_iff] at h
    obtain ⟨⟨i, hi⟩, ⟨j, hj⟩, heq, hne⟩ := h
    rw [List.length_map] at hi hj
    refine ⟨i, j, ?_, hi, hj, ?_⟩
    · intro hc; exact hne (by simp [Fin.ext_iff, hc])
    · simpa [List.get_map] using heq
  · rintro ⟨i, j, hne, hi, hj, heq⟩
    intro hinj
    have : (⟨i, by simpa using hi⟩ : Fin (l.map f).length) = ⟨j, by simpa using hj⟩ :=
      hinj (by simpa [List.get_map] using heq)
    exact hne (by simpa [Fin.ext_iff] using this)

/-- The two distinct assignments whose existence is equivalent to
has_conflicts: same slot and same professor or same room. -/
def hasConflictPair (s : Schedule) : Prop :=
  ∃ i j, i ≠ j ∧ ∃ (hi : i < s.assignments.length) (hj : j < s.assignments.length),
    (s.assignments.get ⟨i, hi⟩).time_slot_id = (s.assignments.get ⟨j, hj⟩).time_slot_id ∧
    ((s.assignments.get ⟨i, hi⟩).professor_id = (s.assignments.get ⟨j, hj⟩).professor_id ∨
      (s.assignments.get ⟨i, hi⟩).room_id = (s.assignments.get ⟨j, hj⟩).room_id)

theorem has_conflicts_iff (s : Schedule) :
    s.has_conflicts = true ↔ hasConflictPair s := by
  rw [has_conflicts_iff_pairs, not_nodup_map_iff, not_nodup_map_iff]
  constructor
  · rintro (⟨i, j, hne, hi, hj, heq⟩ | ⟨i, j, hne, hi, hj, heq⟩)
    · rw [Prod.ext_iff] at heq
      exact ⟨i, j, hne, hi, hj, heq.2, Or.inl heq.1⟩
    · rw [Prod.ext_iff] at heq
      exact ⟨i, j, hne, hi, hj, heq.2, Or.inr heq.1⟩
  · rintro ⟨i, j, hne, hi, hj, hslot, hpr | hpr⟩
    · exact Or.inl ⟨i, j, hne, hi, hj, by rw [Prod.ext_iff]; exact ⟨hpr, hslot⟩⟩
    · exact Or.inr ⟨i, j, hne, hi, hj, by rw [Prod.ext_iff]; exact ⟨hpr, hslot⟩⟩

theorem nodup_of_length_le_one {α : Type} {l : List α} (h : l.length ≤ 1) : l.Nodup := by
  match l with
  | [] => exact List.nodup_nil
  | [x] => simp
  | x :: y :: rest => simp at h

theorem dedup_length_lt_of_not_nodup {α : Type} [DecidableEq α] {l : List α}
    (h : ¬ l.Nodup) : l.dedup.length < l.length := by
  rcases lt_or_eq_of_le (l.dedup_sublist.length_le) with hlt | heq
  · exact hlt
  · exact absurd (l.dedup_sublist.eq_of_length heq ▸ l.nodup_dedup) h

/-- Two distinct positions of l that both pass the filter and have equal
images under f force a duplicate in (l.filter p).map f. -/
theorem not_nodup_map_filter {α β : Type} [DecidableEq β] (p : α → Bool) (f : α → β) :
    ∀ (l : List α) (i j : Nat) (hi : i < l.length) (hj : j < l.length), i < j →
      p (l.get ⟨i, hi⟩) = true → p (l.get ⟨j, hj⟩) = true →
      f (l.get ⟨i, hi⟩) = f (l.get ⟨j, hj⟩) →
      ¬ ((l.filter p).map f).Nodup
  | [], i, j, hi, _, _, _, _, _ => by simp at hi
  | x :: xs, 0, 0, _, _, hij, _, _, _ => by omega
  | x :: xs, 0, j + 1, hi, hj, _, hpi, hpj, hf => by
    intro hn
    have hx : p x = true := hpi
    have hjx : j < xs.length := by simpa using hj
    have hbmem : xs.get ⟨j, hjx⟩ ∈ xs := List.get_mem xs j hjx
    have hbfil : xs.get ⟨j, hjx⟩ ∈ xs.filter p :=
      List.mem_filter.2 ⟨hbmem, hpj⟩
    have hbmap : f (xs.get ⟨j, hjx⟩) ∈ (xs.filter p).map f :=
      List.mem_map.2 ⟨_, hbfil, rfl⟩
    rw [List.filter_cons_of_pos hx, List.map_cons, List.nodup_cons] at hn
    apply hn.1
    have hfx : f x = f (xs.get ⟨j, hjx⟩) := hf
    rw [hfx]
    exact hbmap
  | x :: xs, i + 1, 0, _, _, hij, _, _, _ => by omega
  | x :: xs, i + 1, j + 1, hi, hj, hij, hpi, hpj, hf => by
    intro hn
    have hrec := not_nodup_map_filter p f xs i j (by simpa using hi) (by simpa using hj)
      (by omega) hpi hpj hf
    by_cases hx : p x = true
    · rw [List.filter_cons_of_pos hx, List.map_cons, List.nodup_cons] at hn
      exact hrec hn.2
    · rw [List.filter_cons_of_neg (by simpa using hx)] at hn
      exact hrec hn

theorem mem_slotIdsInOrder {asgs : List Assignment} {u : String} :
    u ∈ slotIdsInOrder asgs ↔ u ∈ asgs.map (fun a => a.time_slot_id) := by
  have key : ∀ (l : List Assignment) (acc : List String),
      u ∈ l.foldl (fun acc a => if a.time_slot_id ∈ acc then acc else acc ++ [a.time_slot_id]) acc ↔
        u ∈ acc ∨ u ∈ l.map (fun a => a.time_slot_id) := by
    intro l
    induction l with
    | nil => simp
    | cons a l ih =>
      intro acc
      simp only [List.foldl_cons, List.map_cons, List.mem_cons, ih]
      by_cases ha : a.time_slot_id ∈ acc
      · rw [if_pos ha]
        constructor
        · rintro (h | h)
          · exact Or.inl h
          · exact Or.inr (Or.inr h)
        · rintro (h | h | h)
          · exact Or.inl h
          · exact Or.inl (h ▸ ha)
          · exact Or.inr h
      · rw [if_neg ha]
        simp only [List.mem_append, List.mem_singleton]
        tauto
  simpa using key asgs []

theorem slotIdsInOrder_nodup (asgs : List Assignment) : (slotIdsInOrder asgs).Nodup := by
  have key : ∀ (l : List Assignment) (acc : List String), acc.Nodup →
      (l.foldl (fun acc a => if a.time_slot_id ∈ acc then acc else acc ++ [a.time_slot_id]) acc).Nodup := by
    intro l
    induction l with
    | nil => intro acc h; simpa using h
    | cons a l ih =>
      intro acc h
      simp only [List.foldl_cons]
      by_cases ha : a.time_slot_id ∈ acc
      · rw [if_pos ha]; exact ih acc h
      · rw [if_neg ha]
        exact ih _ (by simp [List.nodup_append, h, ha])
  exact key asgs [] List.nodup_nil

/-- The ordered-index core of conflict-count soundness: a conflicting pair
of assignments at positions i < j makes the contribution of its slot group
at least one. -/
theorem slotGroupConflicts_pos (asgs : List Assignment) (i j : Nat)
    (hi : i < asgs.length) (hj : j < asgs.length) (hij : i < j)
    (hslot : (asgs.get ⟨i, hi⟩).time_slot_id = (asgs.get ⟨j, hj⟩).time_slot_id)
    (hpr : (asgs.get ⟨i, hi⟩).professor_id = (asgs.get ⟨j, hj⟩).professor_id ∨
      (asgs.get ⟨i, hi⟩).room_id = (asgs.get ⟨j, hj⟩).room_id) :
    1 ≤ slotGroupConflicts asgs (asgs.get ⟨i, hi⟩).time_slot_id := by
  have hpu_i : (fun a => decide (a.time_slot_id = (asgs.get ⟨i, hi⟩).time_slot_id))
      (asgs.get ⟨i, hi⟩) = true := by simp
  have hpu_j : (fun a => decide (a.time_slot_id = (asgs.get ⟨i, hi⟩).time_slot_id))
      (asgs.get ⟨j, hj⟩) = true := by
    simp only [decide_eq_true_eq]
    exact hslot.symm
  have hlenProf := ((asgs.filter (fun a => a.time_slot_id = (asgs.get ⟨i, hi⟩).time_slot_id)).map
    (fun a => a.professor_id)).dedup_sublist.length_le
  have hlenRoom := ((asgs.filter (fun a => a.time_slot_id = (asgs.get ⟨i, hi⟩).time_slot_id)).map
    (fun a => a.room_id)).dedup_sublist.length_le
  rw [List.length_map] at hlenProf hlenRoom
  rcases hpr with hf | hf
  · have hnd := not_nodup_map_filter (fun a => a.time_slot_id = (asgs.get ⟨i, hi⟩).time_slot_id)
      (fun a => a.professor_id) asgs i j hi hj hij hpu_i hpu_j hf
    have h2 : 2 ≤ (asgs.filter (fun a => a.time_slot_id = (asgs.get ⟨i, hi⟩).time_slot_id)).length := by
      by_contra hle
      exact hnd (nodup_of_length_le_one (by rw [List.length_map]; omega))
    have hlt := dedup_length_lt_of_not_nodup hnd
    rw [List.length_map] at hlt
    simp only [slotGroupConflicts]
    rw [if_neg (by omega)]
    omega
  · have hnd := not_nodup_map_filter (fun a => a.time_slot_id = (asgs.get ⟨i, hi⟩).time_slot_id)
      (fun a => a.room_id) asgs i j hi hj hij hpu_i hpu_j hf
    have h2 : 2 ≤ (asgs.filter (fun a => a.time_slot_id = (asgs.get ⟨i, hi⟩).time_slot_id)).length := by
      by_contra hle
      exact hnd (nodup_of_length_le_one (by rw [List.length_map]; omega))
    have hlt := dedup_length_lt_of_not_nodup hnd
    rw [List.length_map] at hlt
    simp only [slotGroupConflicts]
    rw [if_neg (by omega)]
    omega

/-- Soundness half of the conflict count: a conflicting pair of assignments
makes get_conflict_count at least one. -/
theorem conflict_count_pos (s : Schedule) (h : hasConflictPair s) :
    1 ≤ s.get_conflict_count := by
  obtain ⟨i, j, hne, hi, hj, hslot, hpr⟩ := h
  have core : ∀ i j (hi : i < s.assignments.length) (hj : j < s.assignments.length),
      i < j →
      (s.assignments.get ⟨i, hi⟩).time_slot_id = (s.assignments.get ⟨j, hj⟩).time_slot_id →
      ((s.assignments.get ⟨i, hi⟩).professor_id = (s.assignments.get ⟨j, hj⟩).professor_id ∨
        (s.assignments.get ⟨i, hi⟩).room_id = (s.assignments.get ⟨j, hj⟩).room_id) →
      1 ≤ s.get_conflict_count := by
    intro i j hi hj hij hslot hpr
    have hterm := slotGroupConflicts_pos s.assignments i j hi hj hij hslot hpr
    have humem : (s.assignments.get ⟨i, hi⟩).time_slot_id ∈ slotIdsInOrder s.assignments :=
      mem_slotIdsInOrder.2
        (List.mem_map.2 ⟨s.assignments.get ⟨i, hi⟩, List.get_mem s.assignments i hi, rfl⟩)
    have hle : slotGroupConflicts s.assignments (s.assignments.get ⟨i, hi⟩).time_slot_id ≤
        s.get_conflict_count :=
      List.single_le_sum (fun x _ => Nat.zero_le x) _ (List.mem_map.2 ⟨_, humem, rfl⟩)
    omega
  rcases Nat.lt_trichotomy i j with hij | hij | hij
  · exact core i j hi hj hij hslot hpr
  · exact absurd hij hne
  · exact core j i hj hi hij hslot.symm
      (by rcases hpr with h | h; exacts [Or.inl h.symm, Or.inr h.symm])

/-- The skip of groups of at most one assignment does not change the value:
such a group contributes zero to the spec formula as well. -/
theorem slotGroupConflicts_eq_specTerm (asgs : List Assignment) (u : String) :
    slotGroupConflicts asgs u =
      ((asgs.filter (fun a => a.time_slot_id = u)).length -
        ((asgs.filter (fun a => a.time_slot_id = u)).map (fun a => a.professor_id)).dedup.length) +
      ((asgs.filter (fun a => a.time_slot_id = u)).length -
        ((asgs.filter (fun a => a.time_slot_id = u)).map (fun a => a.room_id)).dedup.length) := by
  simp only [slotGroupConflicts]
  by_cases h : (asgs.filter (fun a => a.time_slot_id = u)).length ≤ 1
  · rw [if_pos h]
    match hgrp : asgs.filter (fun a => a.time_slot_id = u) with
    | [] => rw [hgrp]; simp
    | [x] => rw [hgrp]; simp
    | x :: y :: t => rw [hgrp] at h; simp at h
  · rw [if_neg h]

/-- get_conflict_count computes exactly the spec formula: the sum over the
distinct occurring slot ids of the two distinct-count differences. -/
theorem get_conflict_count_eq_spec (s : Schedule) :
    s.get_conflict_count = specConflictCount s := by
  unfold Schedule.get_conflict_count specConflictCount
  have hperm : (slotIdsInOrder s.assignments).Perm
      ((s.assignments.map (fun a => a.time_slot_id)).dedup) :=
    (List.perm_ext_iff_of_nodup (slotIdsInOrder_nodup _) (List.nodup_dedup _)).2
      (fun u => by rw [mem_slotIdsInOrder, List.mem_dedup])
  rw [(hperm.map (slotGroupConflicts s.assignments)).sum_eq]
  rw [List.map_congr_left (fun u _ => slotGroupConflicts_eq_specTerm s.assignments u)]

/-! ## Quality-score lemmas (schedulers/base.py) -/

theorem time_preference_nonneg (ts : TimeSlot) : 0 ≤ ts.get_time_preference_score := by
  simp only [TimeSlot.get_time_preference_score]
  repeat' split
  all_goals norm_num

theorem preference_score_nonneg (p : Professor) (tsid : String) :
    0 ≤ p.get_preference_score tsid := by
  simp only [Professor.get_preference_score]
  repeat' split
  all_goals norm_num

theorem suitability_score_nonneg (r : Room) (ct : CourseType) (cap : Int)
    (eq : List String) : 0 ≤ r.get_suitability_score ct cap eq := by
  simp only [Room.get_suitability_score]
  split
  · norm_num
  · apply le_min _ (by norm_num)
    repeat' split
    all_goals norm_num

theorem assignmentScore_nonneg (ts : List TimeSlot) (ps : List Professor)
    (rs : List Room) (cs : List Course) (a : Assignment) :
    0 ≤ assignmentScore ts ps rs cs a := by
  simp only [assignmentScore]
  refine add_nonneg (add_nonneg (add_nonneg (by norm_num) ?_) ?_) ?_
  · have key : ∀ (o : Option TimeSlot),
        0 ≤ (match o with
             | some x => x.get_time_preference_score * 0.2
             | none => (0 : ℚ)) := by
      rintro (_ | x)
      · simp
      · exact mul_nonneg (time_preference_nonneg x) (by norm_num)
    exact key _
  · have key : ∀ (o1 : Option Professor) (o2 : Option TimeSlot),
        0 ≤ (match o1, o2 with
             | some p, some _ => p.get_preference_score a.time_slot_id * 0.3
             | _, _ => (0 : ℚ)) := by
      rintro (_ | x) (_ | y)
      · simp
      · simp
      · simp
      · exact mul_nonneg (preference_score_nonneg x a.time_slot_id) (by norm_num)
    exact key _ _
  · have key : ∀ (o1 : Option Room) (o2 : Option Course),
        0 ≤ (match o1, o2 with
             | some r, some c =>
               r.get_suitability_score c.course_type c.capacity c.required_equipment * 0.2
             | _, _ => (0 : ℚ)) := by
      rintro (_ | x) (_ | y)
      · simp
      · simp
      · simp
      · exact mul_nonneg (suitability_score_nonneg x y.course_type y.capacity
          y.required_equipment) (by norm_num)
    exact key _ _

theorem calculate_schedule_quality_nonneg (s : Schedule) (ts : List TimeSlot)
    (ps : List Professor) (rs : List Room) (cs : List Course) :
    0 ≤ calculate_schedule_quality s ts ps rs cs := by
  unfold calculate_schedule_quality
  split
  · norm_num
  · exact div_nonneg
      (List.sum_nonneg (fun x hx => by
        obtain ⟨a, _, rfl⟩ := List.mem_map.1 hx
        exact assignmentScore_nonneg ts ps rs cs a))
      (by positivity)

theorem calculate_schedule_quality_empty (s : Schedule) (ts : List TimeSlot)
    (ps : List Professor) (rs : List Room) (cs : List Course)
    (h : s.assignments = []) : calculate_schedule_quality s ts ps rs cs = 0 := by
  unfold calculate_schedule_quality
  rw [if_pos (by simp [h])]

/-- With every entity lookup succeeding, the code-side per-assignment score
is exactly the spec formula. -/
theorem assignmentScore_eq_spec (ts : List TimeSlot) (ps : List Professor)
    (rs : List Room) (cs : List Course) (a : Assignment)
    (hts : (ts.find? (fun x => x.id = a.time_slot_id)).isSome = true)
    (hp : (ps.find? (fun x => x.id = a.professor_id)).isSome = true)
    (hr : (rs.find? (fun x => x.id = a.room_id)).isSome = true)
    (hc : (cs.find? (fun x => x.id = a.course_id)).isSome = true) :
    assignmentScore ts ps rs cs a = specAssignmentScore ts ps rs cs a := by
  rw [Option.isSome_iff_exists] at hts hp hr hc
  obtain ⟨x1, hx1⟩ := hts
  obtain ⟨x2, hx2⟩ := hp
  obtain ⟨x3, hx3⟩ := hr
  obtain ⟨x4, hx4⟩ := hc
  simp only [assignmentScore, specAssignmentScore, hx1, hx2, hx3, hx4, Option.getD_some]
  ring

/-- With every entity lookup succeeding, the quality is the average of the
spec per-assignment scores. -/
theorem calculate_schedule_quality_eq_spec (s : Schedule) (ts : List TimeSlot)
    (ps : List Professor) (rs : List Room) (cs : List Course)
    (h : ∀ a ∈ s.assignments,
      (ts.find? (fun x => x.id = a.time_slot_id)).isSome = true ∧
      (ps.find? (fun x => x.id = a.professor_id)).isSome = true ∧
      (rs.find? (fun x => x.id = a.room_id)).isSome = true ∧
      (cs.find? (fun x => x.id = a.course_id)).isSome = true) :
    calculate_schedule_quality s ts ps rs cs = specQuality s ts ps rs cs := by
  unfold calculate_schedule_quality specQuality
  split
  · rename_i he
    rw [List.isEmpty_iff] at he
    rw [he]
    simp
  · rw [List.map_congr_left (fun a ha => by
      obtain ⟨h1, h2, h3, h4⟩ := h a ha
      exact assignmentScore_eq_spec ts ps rs cs a h1 h2 h3 h4)]

/-! ## List helpers for the CSP proofs -/

theorem exists_of_findSome? {α β : Type} {f : α → Option β} {l : List α} {b : β}
    (h : l.findSome? f = some b) : ∃ a ∈ l, f a = some b := by
  induction l with
  | nil => simp [List.findSome?] at h
  | cons x xs ih =>
    rw [List.findSome?_cons] at h
    cases hx : f x with
    | some v =>
      rw [hx] at h
      exact ⟨x, List.mem_cons_self x xs, by rw [hx]; exact h⟩
    | none =>
      rw [hx] at h
      obtain ⟨a, ha, hfa⟩ := ih h
      exact ⟨a, List.mem_cons_of_mem x ha, hfa⟩

theorem insertLe_perm {α : Type} (le : α → α → Bool) (x : α) (l : List α) :
    (insertLe le x l).Perm (x :: l) := by
  induction l with
  | nil => simp [insertLe]
  | cons y ys ih =>
    simp only [insertLe]
    split
    · exact ((ih.cons y).trans (List.Perm.swap x y ys))
    · exact List.Perm.refl _

theorem stableSort_perm {α : Type} (le : α → α → Bool) (l : List α) :
    (stableSort le l).Perm l := by
  have key : ∀ (l acc : List α),
      (l.foldl (fun acc x => insertLe le x acc) acc).Perm (acc ++ l) := by
    intro l
    induction l with
    | nil => simp
    | cons x xs ih =>
      intro acc
      simp only [List.foldl_cons]
      exact (ih (insertLe le x acc)).trans
        (((insertLe_perm le x acc).append_right xs).trans List.perm_middle.symm)
  simpa using key l []

theorem mem_stableSort {α : Type} {le : α → α → Bool} {l : List α} {a : α} :
    a ∈ stableSort le l ↔ a ∈ l :=
  (stableSort_perm le l).mem_iff

/-! ## CSP domain-invariant machinery -/

namespace CSP

/-- Every value of every domain satisfies P (at its course key). -/
def DomsInv (P : String → Value → Prop) (doms : Domains) : Prop :=
  ∀ kv ∈ doms, ∀ v ∈ kv.2, P kv.1 v

theorem DomsInv.lookup {P : String → Value → Prop} {doms : Domains}
    (h : DomsInv P doms) {cid : String} {v : Value} (hv : v ∈ lookupDom doms cid) :
    P cid v := by
  unfold lookupDom at hv
  cases hfind : doms.find? (fun kv => kv.1 = cid) with
  | none => rw [hfind] at hv; simp at hv
  | some kv =>
    rw [hfind] at hv
    have hmem := List.mem_of_find?_eq_some hfind
    have hkey : kv.1 = cid := by simpa using List.find?_some hfind
    exact hkey ▸ h kv hmem v hv

theorem DomsInv.setDom {P : String → Value → Prop} {doms : Domains}
    (h : DomsInv P doms) {c : String} {nd : List Value} (hnd : ∀ v ∈ nd, P c v) :
    DomsInv P (setDom doms c nd) := by
  induction doms with
  | nil => intro kv hkv; simp [CSP.setDom] at hkv
  | cons kv0 rest ih =>
    obtain ⟨k0, d0⟩ := kv0
    intro kv hkv
    simp only [CSP.setDom] at hkv
    by_cases hk0 : k0 = c
    · rw [if_pos hk0] at hkv
      rcases List.mem_cons.1 hkv with rfl | hrest
      · intro v hv
        simpa [hk0] using hnd v hv
      · exact h _ (List.mem_cons_of_mem _ hrest)
    · rw [if_neg hk0] at hkv
      rcases List.mem_cons.1 hkv with rfl | hrest
      · exact h _ (List.mem_cons_self _ _)
      · exact ih (fun kv' hkv' => h kv' (List.mem_cons_of_mem _ hkv')) kv hrest

theorem DomsInv.reviseList {P : String → Value → Prop} {doms : Domains}
    (h : DomsInv P doms) (c1 c2 : String) :
    ∀ v ∈ reviseList (lookupDom doms c1) (lookupDom doms c2), P c1 v := by
  intro v hv
  exact h.lookup (List.mem_of_mem_filter hv)

theorem DomsInv.forward_check {P : String → Value → Prop} {doms : Domains}
    (h : DomsInv P doms) {cid : String} {v : Value} (hv : P cid v) :
    DomsInv P (forward_check cid v doms) := by
  intro kv hkv w hw
  unfold CSP.forward_check at hkv
  obtain ⟨kv0, hkv0, heq⟩ := List.mem_map.1 hkv
  by_cases hk : kv0.1 = cid
  · rw [if_pos hk] at heq
    subst heq
    simp only at hw ⊢
    rcases List.mem_singleton.1 hw with rfl
    exact hk ▸ hv
  · rw [if_neg hk] at heq
    subst heq
    simp only at hw ⊢
    exact h kv0 hkv0 w (List.mem_of_mem_filter hw)

/-- AC-3 only ever filters domains, so it preserves every domain
invariant. -/
theorem ac3_preserves {P : String → Value → Prop} (course_ids : List String)
    (queue : List (String × String)) (doms : Domains) (h : DomsInv P doms) :
    DomsInv P (ac3 course_ids queue doms) := by
  induction queue, doms using ac3.induct course_ids with
  | case1 doms => simpa [ac3] using h
  | case2 doms c1 c2 rest d1 d1' hlt hempty =>
    rw [ac3]
    split
    · exact h.setDom (h.reviseList c1 c2)
    · rename_i hc
      exact absurd hlt hc
  | case3 doms c1 c2 rest d1 d1' hlt doms' hempty ih =>
    rw [ac3]
    split
    · exact ih (h.setDom (h.reviseList c1 c2))
    · rename_i hc
      exact absurd hlt hc
  | case4 doms c1 c2 rest d1 d1' hlt ih =>
    rw [ac3]
    split
    · rename_i hc
      exact absurd hc hlt
    · exact ih h

theorem DomsInv.apply_arc_consistency {P : String → Value → Prop} {doms : Domains}
    (h : DomsInv P doms) : DomsInv P (apply_arc_consistency doms) :=
  ac3_preserves _ _ _ h

theorem mem_listSet {l : List Value} {v : Value} : v ∈ listSet l ↔ v ∈ l := by
  have key : ∀ (l acc : List Value),
      v ∈ l.foldl (fun acc v => if v ∈ acc then acc else acc ++ [v]) acc ↔
        v ∈ acc ∨ v ∈ l := by
    intro l
    induction l with
    | nil => simp
    | cons x xs ih =>
      intro acc
      simp only [List.foldl_cons, ih, List.mem_cons]
      by_cases hx : x ∈ acc
      · rw [if_pos hx]
        constructor
        · rintro (h | h)
          · exact Or.inl h
          · exact Or.inr (Or.inr h)
        · rintro (h | h | h)
          · exact Or.inl h
          · exact Or.inl (h ▸ hx)
          · exact Or.inr h
      · rw [if_neg hx]
        simp only [List.mem_append, List.mem_singleton]
        tauto
  simpa using key l []

/-- Membership in the initial domain of a course is exactly the existence of
a professor/room/slot triple in the inputs passing the three checks. -/
theorem mem_domainFor {d : SchedData} {c : Course} {v : Value} :
    v ∈ domainFor d c ↔
      ∃ p ∈ d.professors, ∃ r ∈ d.rooms, ∃ ts ∈ d.time_slots,
        can_professor_teach_course p c = true ∧ can_room_host_course r c = true ∧
        can_schedule_at_time c p r ts = true ∧ v = (p.id, r.id, ts.id) := by
  simp only [domainFor, mem_listSet, List.mem_flatMap, List.mem_filter, List.mem_map]
  constructor
  · rintro ⟨p, ⟨hp, hp2⟩, r, ⟨hr, hr2⟩, ts, ⟨hts, hts2⟩, rfl⟩
    exact ⟨p, hp, r, hr, ts, hts, hp2, hr2, hts2, rfl⟩
  · rintro ⟨p, hp, r, hr, ts, hts, hp2, hr2, hts2, rfl⟩
    exact ⟨p, ⟨hp, hp2⟩, r, ⟨hr, hr2⟩, ts, ⟨hts, hts2⟩, rfl⟩

theorem dictSet_mem {m : Domains} {k : String} {v : List Value} {kv : String × List Value}
    (h : kv ∈ dictSet m k v) : kv ∈ m ∨ kv = (k, v) := by
  induction m with
  | nil => simpa [dictSet] using h
  | cons kv0 rest ih =>
    obtain ⟨k0, d0⟩ := kv0
    simp only [dictSet] at h
    by_cases hk : k0 = k
    · rw [if_pos hk] at h
      rcases List.mem_cons.1 h with rfl | hrest
      · exact Or.inr rfl
      · exact Or.inl (List.mem_cons_of_mem _ hrest)
    · rw [if_neg hk] at h
      rcases List.mem_cons.1 h with rfl | hrest
      · exact Or.inl (List.mem_cons_self _ _)
      · rcases ih hrest with hm | heq
        · exact Or.inl (List.mem_cons_of_mem _ hm)
        · exact Or.inr heq

/-- The initial domains satisfy any predicate that holds of every admitted
triple of every course. -/
theorem init_domains_inv (d : SchedData) (P : String → Value → Prop)
    (hP : ∀ c ∈ d.courses, ∀ v ∈ domainFor d c, P c.id v) :
    DomsInv P (init_domains d) := by
  unfold init_domains
  have key : ∀ (cs : List Course) (acc : Domains), (∀ c ∈ cs, c ∈ d.courses) →
      DomsInv P acc →
      DomsInv P (cs.foldl (fun doms c => dictSet doms c.id (domainFor d c)) acc) := by
    intro cs
    induction cs with
    | nil => intro acc _ hacc; exact hacc
    | cons c cs ih =>
      intro acc hsub hacc
      simp only [List.foldl_cons]
      apply ih _ (fun c' hc' => hsub c' (List.mem_cons_of_mem _ hc'))
      intro kv hkv
      rcases dictSet_mem hkv with hm | rfl
      · exact hacc kv hm
      · intro v hv
        exact hP c (hsub c (List.mem_cons_self _ _)) v hv
  exact key d.courses [] (fun c hc => hc) (by intro kv hkv; simp at hkv)

theorem assignments_conflict_symm (v1 v2 : Value) :
    assignments_conflict v1 v2 = assignments_conflict v2 v1 := by
  obtain ⟨p1, r1, t1⟩ := v1
  obtain ⟨p2, r2, t2⟩ := v2
  simp only [assignments_conflict]
  by_cases ht : t1 = t2
  · rw [if_pos ht, if_pos ht.symm]
    exact decide_eq_decide.mpr ⟨fun h => h.imp Eq.symm Eq.symm, fun h => h.imp Eq.symm Eq.symm⟩
  · rw [if_neg ht, if_neg (Ne.symm ht)]

theorem mem_order_domain_values {cfg : Config} {cid : String} {doms : Domains} {v : Value}
    (h : v ∈ order_domain_values cfg cid doms) : v ∈ lookupDom doms cid := by
  unfold order_domain_values at h
  split at h
  · exact mem_stableSort.1 h
  · exact h

theorem is_consistent_forall {v : Value} {asg : PartialAsg}
    (h : is_consistent v asg = true) :
    ∀ kv ∈ asg, assignments_conflict v kv.2 = false := by
  intro kv hkv
  unfold is_consistent at h
  rw [List.all_eq_true] at h
  simpa using h kv hkv

/-- A partial assignment whose committed triples are pairwise
non-conflicting. -/
def PairwiseConsistent (asg : PartialAsg) : Prop :=
  asg.Pairwise (fun x y => assignments_conflict x.2 y.2 = false)

/-- Every committed pair of a partial assignment satisfies P. -/
def AsgSat (P : String → Value → Prop) (asg : PartialAsg) : Prop :=
  ∀ kv ∈ asg, P kv.1 kv.2

/-- Soundness of the backtracking search: from a consistent, P-sound partial
assignment over P-sound domains it only ever produces consistent, P-sound
solutions; every committed value is checked against all earlier commitments
and drawn from the current domains. -/
theorem backtrack_sound (cfg : Config) (nc : Nat) (P : String → Value → Prop) :
    ∀ (fuel : Nat) (asg : PartialAsg) (doms : Domains) (sol : PartialAsg),
      backtrack_search cfg nc fuel asg doms = some sol →
      PairwiseConsistent asg → AsgSat P asg → DomsInv P doms →
      PairwiseConsistent sol ∧ AsgSat P sol := by
  intro fuel
  induction fuel with
  | zero =>
    intro asg doms sol h
    simp [backtrack_search] at h
  | succ fuel ih =>
    intro asg doms sol h hpc hsat hinv
    rw [backtrack_search] at h
    split at h
    · rw [Option.some_inj] at h
      subst h
      exact ⟨hpc, hsat⟩
    · cases hsel : select_unassigned_variable cfg asg doms with
      | none =>
        rw [hsel] at h
        have h' : some asg = some sol := h
        rw [Option.some_inj] at h'
        subst h'
        exact ⟨hpc, hsat⟩
      | some cid =>
        rw [hsel] at h
        have h' : (order_domain_values cfg cid doms).findSome? (fun v =>
          if is_consistent v asg then
            let newDoms := if cfg.use_forward_checking then forward_check cid v doms else doms
            if cfg.use_forward_checking ∧ newDoms.any (fun kv => kv.2.isEmpty) then none
            else backtrack_search cfg nc fuel (asg ++ [(cid, v)]) newDoms
          else none) = some sol := h
        obtain ⟨v, hv, hfv⟩ := exists_of_findSome? h'
        have hvdom : v ∈ lookupDom doms cid := mem_order_domain_values hv
        have hPv : P cid v := hinv.lookup hvdom
        by_cases hcons : is_consistent v asg = true
        · rw [if_pos hcons] at hfv
          dsimp only at hfv
          have hpcApp : PairwiseConsistent (asg ++ [(cid, v)]) := by
            rw [PairwiseConsistent, List.pairwise_append]
            refine ⟨hpc, List.pairwise_singleton _ _, ?_⟩
            intro x hx b hb
            rcases List.mem_singleton.1 hb with rfl
            rw [assignments_conflict_symm]
            exact is_consistent_forall hcons x hx
          have hsatApp : AsgSat P (asg ++ [(cid, v)]) := by
            intro kv hkv
            rcases List.mem_append.1 hkv with hold | hnew
            · exact hsat kv hold
            · rcases List.mem_singleton.1 hnew with rfl
              exact hPv
          split at hfv
          · split at hfv
            · exact absurd hfv (by simp)
            · exact ih _ _ _ hfv hpcApp hsatApp (hinv.forward_check hPv)
          · split at hfv
            · exact absurd hfv (by simp)
            · exact ih _ _ _ hfv hpcApp hsatApp hinv
        · rw [if_neg hcons] at hfv
          exact absurd hfv (by simp)

/-- A pairwise-consistent solution materializes into a conflict-free
schedule. -/
theorem solution_to_schedule_no_conflicts (sol : PartialAsg)
    (h : PairwiseConsistent sol) :
    (solution_to_schedule sol).has_conflicts = false := by
  have hdup : ∀ (l : List (String × String)), l.Nodup → dupScan l [] = false := by
    intro l hl
    cases hd : dupScan l [] with
    | false => rfl
    | true => exact absurd hl (dupScan_nil_seen.1 hd)
  unfold Schedule.has_conflicts
  rw [Bool.or_eq_false_iff]
  constructor
  · apply hdup
    unfold solution_to_schedule
    simp only [List.map_map]
    refine List.Pairwise.map _ ?_ h
    intro a b hab
    intro hc
    simp only [Function.comp, Prod.mk.injEq] at hc
    unfold assignments_conflict at hab
    rw [if_pos hc.2] at hab
    simp [hc.1] at hab
  · apply hdup
    unfold solution_to_schedule
    simp only [List.map_map]
    refine List.Pairwise.map _ ?_ h
    intro a b hab
    intro hc
    simp only [Function.comp, Prod.mk.injEq] at hc
    unfold assignments_conflict at hab
    rw [if_pos hc.2] at hab
    simp [hc.1] at hab

/-! ### Decomposing the admission predicates -/

theorem can_professor_teach_course_props {p : Professor} {c : Course}
    (h : can_professor_teach_course p c = true) :
    p.is_active = true ∧ p.department = c.branch := by
  unfold can_professor_teach_course at h
  have := of_decide_eq_true h
  exact ⟨this.1, this.2.1⟩

theorem is_suitable_for_course_props {r : Room} {ct : CourseType} {cap : Int}
    {eq : List String} (h : r.is_suitable_for_course ct cap eq = true) :
    r.is_available = true ∧ cap ≤ r.capacity ∧
    (ct = CourseType.laboratory →
      r.room_type = RoomType.laboratory ∨ r.room_type = RoomType.computer_lab) ∧
    r.has_all_features (recognizedFeatures eq) = true := by
  unfold Room.is_suitable_for_course at h
  split at h
  · simp at h
  · split at h
    · simp at h
    · split at h
      · simp at h
      · rename_i h1 h2 h3
        refine ⟨by simpa using h1, by omega, ?_, ?_⟩
        · intro hct
          by_contra hB
          exact h3 ⟨hct, hB⟩
        · split at h
          · rename_i h4
            rw [List.isEmpty_iff] at h4
            rw [h4]
            rfl
          · exact h

theorem is_suitable_for_course_type_props {ts : TimeSlot} {ct : CourseType}
    (h : ts.is_suitable_for_course_type ct = true) :
    ts.is_active = true ∧ ts.slot_type ≠ SlotType.brk ∧ ts.slot_type ≠ SlotType.lunch := by
  unfold TimeSlot.is_suitable_for_course_type at h
  split at h
  · simp at h
  · split at h
    · simp at h
    · rename_i h1 h2
      exact ⟨by simpa using h1, fun hc => h2 (Or.inl hc), fun hc => h2 (Or.inr hc)⟩

theorem can_schedule_at_time_props {c : Course} {p : Professor} {r : Room} {ts : TimeSlot}
    (h : can_schedule_at_time c p r ts = true) :
    ts.is_suitable_for_course_type c.course_type = true ∧
    ts.can_accommodate_duration c.duration = true ∧
    p.is_available_at ts.id = true ∧ r.is_available_at ts.id = true := by
  unfold can_schedule_at_time at h
  simpa using of_decide_eq_true h

theorem professor_available_at_props {p : Professor} {tsid : String}
    (h : p.is_available_at tsid = true) : tsid ∉ p.unavailable_slots := by
  unfold Professor.is_available_at at h
  split at h
  · simp at h
  · rename_i hc
    exact hc

theorem room_available_at_props {r : Room} {tsid : String}
    (h : r.is_available_at tsid = true) :
    r.is_available = true ∧ tsid ∉ r.maintenance_slots := by
  unfold Room.is_available_at at h
  simpa using of_decide_eq_true h

/-! ### End-to-end CSP results -/

/-- If the backtracking search signals failure, generate_schedule returns
the failed sentinel. -/
theorem generate_schedule_of_solve_none {cfg : Config} {d : SchedData}
    (h : solve cfg (preprocess_data d) = none) :
    generate_schedule cfg d = failedSchedule := by
  unfold generate_schedule
  dsimp only
  rw [h]

/-- If the search succeeds with the empty solution (no courses), the
truthiness test also yields the failed sentinel. -/
theorem generate_schedule_of_solve_empty {cfg : Config} {d : SchedData}
    (h : solve cfg (preprocess_data d) = some []) :
    generate_schedule cfg d = failedSchedule := by
  unfold generate_schedule
  dsimp only
  rw [h]
  rfl

/-- With no courses, the search returns the complete (empty) solution. -/
theorem solve_empty_courses (cfg : Config) (ps : List Professor) (rs : List Room)
    (ts : List TimeSlot) :
    solve cfg (preprocess_data ⟨[], ps, rs, ts⟩) = some [] := by
  have hcourses : (preprocess_data ⟨[], ps, rs, ts⟩).courses = [] := rfl
  unfold solve
  rw [hcourses]
  have hdoms : init_domains (preprocess_data ⟨[], ps, rs, ts⟩) = [] := rfl
  rw [hdoms]
  have hac : apply_arc_consistency [] = [] := by
    unfold apply_arc_consistency
    simp [initialArcs, ac3]
  cases hfc : cfg.use_arc_consistency <;> simp [hfc, hac, backtrack_search]

/-- Every nonempty schedule the CSP scheduler returns is conflict-free. -/
theorem generate_schedule_no_conflicts (cfg : Config) (d : SchedData)
    (h : (generate_schedule cfg d).assignments ≠ []) :
    (generate_schedule cfg d).has_conflicts = false := by
  unfold generate_schedule at h ⊢
  dsimp only at h ⊢
  cases hsol : solve cfg (preprocess_data d) with
  | none => rfl
  | some sol =>
    dsimp only at h ⊢
    by_cases hempty : sol.isEmpty = true
    · rw [if_pos hempty]; rfl
    · rw [if_neg hempty]
      unfold solve at hsol
      dsimp only at hsol
      obtain ⟨hpc, _⟩ := backtrack_sound cfg (preprocess_data d).courses.length
        (fun _ _ => True) _ _ _ _ hsol
        (by rw [PairwiseConsistent]; exact List.Pairwise.nil)
        (fun kv _ => trivial)
        (fun kv _ v _ => trivial)
      exact solution_to_schedule_no_conflicts sol hpc

/-- The slot predicate carried through the CSP pipeline for the break/lunch
claim: the value's slot id is that of an input slot that is active and not a
break or lunch slot. -/
def SlotOk (slots : List TimeSlot) : String → Value → Prop := fun _ v =>
  ∃ ts ∈ slots, ts.id = v.2.2 ∧ ts.is_active = true ∧
    ts.slot_type ≠ SlotType.brk ∧ ts.slot_type ≠ SlotType.lunch

theorem init_domains_slotOk (d : SchedData) :
    DomsInv (SlotOk d.time_slots) (init_domains d) := by
  apply init_domains_inv
  intro c _ v hv
  obtain ⟨p, hp, r, hr, ts, hts, _, _, hsched, rfl⟩ := mem_domainFor.1 hv
  obtain ⟨hsuit, _, _, _⟩ := can_schedule_at_time_props hsched
  obtain ⟨hact, hbrk, hlunch⟩ := is_suitable_for_course_type_props hsuit
  exact ⟨ts, hts, rfl, hact, hbrk, hlunch⟩

/-- Every assignment of every schedule the CSP scheduler returns references
a slot id belonging to an input slot that is active and neither break nor
lunch. -/
theorem generate_schedule_slotOk (cfg : Config) (d : SchedData) :
    ∀ a ∈ (generate_schedule cfg d).assignments,
      ∃ ts ∈ d.time_slots, ts.id = a.time_slot_id ∧ ts.is_active = true ∧
        ts.slot_type ≠ SlotType.brk ∧ ts.slot_type ≠ SlotType.lunch := by
  intro a ha
  unfold generate_schedule at ha
  dsimp only at ha
  cases hsol : solve cfg (preprocess_data d) with
  | none =>
    rw [hsol] at ha
    have ha2 : a ∈ failedSchedule.assignments := ha
    simp [failedSchedule] at ha2
  | some sol =>
    rw [hsol] at ha
    have ha2 : a ∈ (if sol.isEmpty = true then failedSchedule
      else solution_to_schedule sol).assignments := ha
    by_cases hempty : sol.isEmpty = true
    · rw [if_pos hempty] at ha2
      simp [failedSchedule] at ha2
    · rw [if_neg hempty] at ha2
      unfold solve at hsol
      dsimp only at hsol
      have hinv0 : DomsInv (SlotOk (preprocess_data d).time_slots)
          (init_domains (preprocess_data d)) := init_domains_slotOk _
      have hinv : DomsInv (SlotOk (preprocess_data d).time_slots)
          (if cfg.use_arc_consistency then
            apply_arc_consistency (init_domains (preprocess_data d))
          else init_domains (preprocess_data d)) := by
        split
        · exact hinv0.apply_arc_consistency
        · exact hinv0
      obtain ⟨_, hsat⟩ := backtrack_sound cfg (preprocess_data d).courses.length
        (SlotOk (preprocess_data d).time_slots) _ _ _ _ hsol
        (by rw [PairwiseConsistent]; exact List.Pairwise.nil)
        (fun kv hkv => absurd hkv (List.not_mem_nil kv))
        hinv
      unfold solution_to_schedule at ha2
      obtain ⟨kv, hkv, rfl⟩ := List.mem_map.1 ha2
      obtain ⟨ts, hts, hid, hact, hbrk, hlunch⟩ := hsat kv hkv
      refine ⟨ts, ?_, hid, hact, hbrk, hlunch⟩
      have hperm : (preprocess_data d).time_slots.Perm d.time_slots :=
        stableSort_perm timeSlotLe d.time_slots
      exact hperm.mem_iff.1 hts

/-! ### The initial domain of a course, under unique course ids -/

theorem lookupDom_dictSet_self (m : Domains) (k : String) (v : List Value) :
    lookupDom (dictSet m k v) k = v := by
  induction m with
  | nil => simp [dictSet, lookupDom, List.find?]
  | cons kv0 rest ih =>
    obtain ⟨k0, d0⟩ := kv0
    simp only [dictSet]
    by_cases hk : k0 = k
    · rw [if_pos hk, lookupDom_cons, if_pos rfl]
    · rw [if_neg hk, lookupDom_cons, if_neg hk]
      exact ih

theorem lookupDom_dictSet_other (m : Domains) (k k' : String) (v : List Value)
    (h : k ≠ k') : lookupDom (dictSet m k v) k' = lookupDom m k' := by
  induction m with
  | nil => simp [dictSet, lookupDom, List.find?, h]
  | cons kv0 rest ih =>
    obtain ⟨k0, d0⟩ := kv0
    simp only [dictSet]
    by_cases hk : k0 = k
    · rw [if_pos hk, lookupDom_cons, if_neg h, lookupDom_cons, if_neg (hk ▸ h)]
    · rw [if_neg hk, lookupDom_cons, lookupDom_cons]
      by_cases hk' : k0 = k'
      · rw [if_pos hk', if_pos hk']
      · rw [if_neg hk', if_neg hk']
        exact ih

theorem foldl_dictSet_untouched (d : SchedData) :
    ∀ (cs : List Course) (acc : Domains) (k : String), (∀ c' ∈ cs, c'.id ≠ k) →
      lookupDom (cs.foldl (fun doms c => dictSet doms c.id (domainFor d c)) acc) k =
        lookupDom acc k := by
  intro cs
  induction cs with
  | nil => intro acc k _; rfl
  | cons c0 cs ih =>
    intro acc k hk
    simp only [List.foldl_cons]
    rw [ih _ k (fun c' hc' => hk c' (List.mem_cons_of_mem _ hc'))]
    exact lookupDom_dictSet_other acc c0.id k _ (hk c0 (List.mem_cons_self _ _))

/-- Under unique course ids, the initial domain stored for a course is
exactly the domain computed for it. -/
theorem lookup_init_domains (d : SchedData)
    (hnd : (d.courses.map (fun c => c.id)).Nodup) (c : Course) (hc : c ∈ d.courses) :
    lookupDom (init_domains d) c.id = domainFor d c := by
  unfold init_domains
  have key : ∀ (cs : List Course) (acc : Domains), (cs.map (fun c => c.id)).Nodup →
      ∀ c ∈ cs,
        lookupDom (cs.foldl (fun doms c => dictSet doms c.id (domainFor d c)) acc) c.id =
          domainFor d c := by
    intro cs
    induction cs with
    | nil => intro acc _ c hc; simp at hc
    | cons c0 cs ih =>
      intro acc hnd c hc
      rw [List.map_cons, List.nodup_cons] at hnd
      simp only [List.foldl_cons]
      rcases List.mem_cons.1 hc with rfl | hcs
      · rw [foldl_dictSet_untouched d cs _ c.id
          (fun c' hc' hid => hnd.1 (hid ▸ List.mem_map.2 ⟨c', hc', rfl⟩))]
        exact lookupDom_dictSet_self acc c.id _
      · exact ih _ hnd.2 c hcs
  exact key d.courses [] hnd c hc

/-- Domain soundness: every triple in a course's initial domain names a
professor, room and slot of the input satisfying, simultaneously, all the
admission conditions. -/
theorem init_domain_triple_sound (d : SchedData)
    (hnd : (d.courses.map (fun c => c.id)).Nodup) (c : Course) (hc : c ∈ d.courses)
    (v : Value) (hv : v ∈ lookupDom (init_domains d) c.id) :
    ∃ p ∈ d.professors, ∃ r ∈ d.rooms, ∃ ts ∈ d.time_slots,
      v = (p.id, r.id, ts.id) ∧
      p.is_active = true ∧ p.department = c.branch ∧
      r.is_available = true ∧ c.capacity ≤ r.capacity ∧
      (c.course_type = CourseType.laboratory →
        r.room_type = RoomType.laboratory ∨ r.room_type = RoomType.computer_lab) ∧
      r.has_all_features (recognizedFeatures c.required_equipment) = true ∧
      ts.is_active = true ∧ ts.slot_type ≠ SlotType.brk ∧ ts.slot_type ≠ SlotType.lunch ∧
      ts.is_suitable_for_course_type c.course_type = true ∧
      c.duration ≤ ts.duration_minutes ∧
      ts.id ∉ p.unavailable_slots ∧ ts.id ∉ r.maintenance_slots := by
  rw [lookup_init_domains d hnd c hc] at hv
  obtain ⟨p, hp, r, hr, ts, hts, hteach, hhost, hsched, rfl⟩ := mem_domainFor.1 hv
  obtain ⟨hact, hdept⟩ := can_professor_teach_course_props hteach
  obtain ⟨havail, hcap, htype, hfeat⟩ := is_suitable_for_course_props hhost
  obtain ⟨hsuit, hdur, hpavail, hravail⟩ := can_schedule_at_time_props hsched
  obtain ⟨hsact, hbrk, hlunch⟩ := is_suitable_for_course_type_props hsuit
  refine ⟨p, hp, r, hr, ts, hts, rfl, hact, hdept, havail, hcap, htype, hfeat,
    hsact, hbrk, hlunch, hsuit, ?_, ?_, ?_⟩
  · unfold TimeSlot.can_accommodate_duration at hdur
    simpa using of_decide_eq_true hdur
  · exact professor_available_at_props hpavail
  · exact (room_available_at_props hravail).2

/-! ### Adequacy of the fuel given to the backtracking search

The Python recursion is unbounded; the model bounds it with fuel.  The
results below show the bound is never hit: every recursive call strictly
shrinks the number of unassigned domain keys, so any fuel above that count
computes the same result, and the entry point always supplies more fuel
than there are courses. -/

/-- The number of domain keys not yet assigned: the recursion depth still
available to the search. -/
def unassignedCount (asg : PartialAsg) (doms : Domains) : Nat :=
  ((doms.map (fun kv => kv.1)).filter (fun cid => ¬ asg.any (fun kv => kv.1 = cid))).length

theorem findSome?_congr {α β : Type} {f g : α → Option β} :
    ∀ {l : List α}, (∀ a ∈ l, f a = g a) → l.findSome? f = l.findSome? g := by
  intro l
  induction l with
  | nil => intro _; rfl
  | cons x xs ih =>
    intro h
    rw [List.findSome?_cons, List.findSome?_cons, h x (List.mem_cons_self x xs)]
    cases g x with
    | some v => rfl
    | none => exact ih fun a ha => h a (List.mem_cons_of_mem x ha)

theorem minByFirst_mem {f : String → Nat} :
    ∀ {l : List String} {y : String}, minByFirst f l = some y → y ∈ l := by
  intro l
  induction l with
  | nil => intro y h; simp [minByFirst] at h
  | cons x xs ih =>
    intro y h
    rw [minByFirst] at h
    cases hm : minByFirst f xs with
    | none =>
      rw [hm] at h
      have hx : some x = some y := h
      rw [Option.some_inj] at hx
      exact hx ▸ List.mem_cons_self x xs
    | some z =>
      rw [hm] at h
      have h' : (if f z < f x then some z else some x) = some y := h
      split at h' <;> rw [Option.some_inj] at h'
      · exact h' ▸ List.mem_cons_of_mem x (ih hm)
      · exact h' ▸ List.mem_cons_self x xs

theorem select_some_props {cfg : Config} {asg : PartialAsg} {doms : Domains} {cid : String}
    (h : select_unassigned_variable cfg asg doms = some cid) :
    cid ∈ doms.map (fun kv => kv.1) ∧ asg.any (fun kv => kv.1 = cid) = false := by
  unfold select_unassigned_variable at h
  cases hun : (doms.map (fun kv => kv.1)).filter
      (fun cid => ¬ asg.any (fun kv => kv.1 = cid)) with
  | nil =>
    rw [hun] at h
    have : (none : Option String) = some cid := h
    simp at this
  | cons x xs =>
    rw [hun] at h
    have h' : (if cfg.variable_ordering = "mrv" then
        minByFirst (fun cid => (lookupDom doms cid).length) (x :: xs)
      else some x) = some cid := h
    have hcid : cid ∈ x :: xs := by
      split at h'
      · exact minByFirst_mem h'
      · rw [Option.some_inj] at h'
        exact h' ▸ List.mem_cons_self x xs
    have hmem := List.mem_filter.1 (hun ▸ hcid)
    exact ⟨hmem.1, by simpa using hmem.2⟩

theorem forward_check_keys (cid : String) (v : Value) (doms : Domains) :
    (forward_check cid v doms).map (fun kv => kv.1) = doms.map (fun kv => kv.1) := by
  unfold forward_check
  rw [List.map_map]
  apply List.map_congr_left
  intro kv _
  simp only [Function.comp_apply]
  split <;> rfl

theorem unassignedCount_lt (v : Value) {asg : PartialAsg} {doms nd : Domains} {cid : String}
    (hkeys : nd.map (fun kv => kv.1) = doms.map (fun kv => kv.1))
    (hmem : cid ∈ doms.map (fun kv => kv.1))
    (hun : asg.any (fun kv => kv.1 = cid) = false) :
    unassignedCount (asg ++ [(cid, v)]) nd < unassignedCount asg doms := by
  unfold unassignedCount
  rw [hkeys]
  have himp : ∀ k : String,
      (fun cid' => decide (¬ (asg ++ [(cid, v)]).any (fun kv => kv.1 = cid') = true)) k = true →
      (fun cid' => decide (¬ asg.any (fun kv => kv.1 = cid') = true)) k = true := by
    intro k hk
    rw [decide_eq_true_eq] at hk ⊢
    intro hc
    exact hk (by rw [List.any_append]; simp [hc])
  have hsub := List.monotone_filter_right (doms.map (fun kv => kv.1)) himp
  have hmem1 : cid ∈ (doms.map (fun kv => kv.1)).filter
      (fun cid' => ¬ asg.any (fun kv => kv.1 = cid')) :=
    List.mem_filter.2 ⟨hmem, by simp [hun]⟩
  have hmem2 : cid ∉ (doms.map (fun kv => kv.1)).filter
      (fun cid' => ¬ (asg ++ [(cid, v)]).any (fun kv => kv.1 = cid')) := by
    intro hc
    have := (List.mem_filter.1 hc).2
    rw [decide_eq_true_eq] at this
    exact this (by rw [List.any_append]; simp)
  rcases lt_or_eq_of_le hsub.length_le with hlt | heq
  · exact hlt
  · exact absurd (hsub.eq_of_length heq ▸ hmem1) hmem2

/-- Any two fuels above the number of unassigned keys give the same search
result: the fuel bound of the model is never the deciding factor. -/
theorem backtrack_search_fuel_irrelevant (cfg : Config) (nc : Nat) :
    ∀ (n : Nat) (asg : PartialAsg) (doms : Domains) (f1 f2 : Nat),
      unassignedCount asg doms = n → n < f1 → n < f2 →
      backtrack_search cfg nc f1 asg doms = backtrack_search cfg nc f2 asg doms := by
  intro n
  induction n using Nat.strong_induction_on with
  | _ n ih =>
    intro asg doms f1 f2 hn h1 h2
    cases f1 with
    | zero => omega
    | succ a =>
      cases f2 with
      | zero => omega
      | succ b =>
        rw [backtrack_search, backtrack_search]
        by_cases hlen : asg.length = nc
        · rw [if_pos hlen, if_pos hlen]
        · rw [if_neg hlen, if_neg hlen]
          cases hsel : select_unassigned_variable cfg asg doms with
          | none => rfl
          | some cid =>
            refine findSome?_congr ?_
            intro v hv
            by_cases hcons : is_consistent v asg = true
            · rw [if_pos hcons, if_pos hcons]
              dsimp only
              obtain ⟨hmem, hun⟩ := select_some_props hsel
              have hkeys : (if cfg.use_forward_checking then forward_check cid v doms
                  else doms).map (fun kv => kv.1) = doms.map (fun kv => kv.1) := by
                split
                · exact forward_check_keys cid v doms
                · rfl
              have hlt := unassignedCount_lt v hkeys hmem hun
              by_cases hguard : cfg.use_forward_checking = true ∧
                  (List.any (if cfg.use_forward_checking = true then forward_check cid v doms
                    else doms) fun kv => kv.2.isEmpty) = true
              · rw [if_pos hguard, if_pos hguard]
              · rw [if_neg hguard, if_neg hguard]
                exact ih _ (by omega) _ _ _ _ rfl (by omega) (by omega)
            · rw [if_neg hcons, if_neg hcons]

theorem setDom_keys (doms : Domains) (c : String) (nd : List Value) :
    (setDom doms c nd).map (fun kv => kv.1) = doms.map (fun kv => kv.1) := by
  induction doms with
  | nil => rfl
  | cons kv0 rest ih =>
    obtain ⟨k0, d0⟩ := kv0
    simp only [setDom]
    by_cases hk : k0 = c
    · rw [if_pos hk]
      simp [hk]
    · rw [if_neg hk]
      simp [ih]

theorem ac3_keys (course_ids : List String) (queue : List (String × String))
    (doms : Domains) :
    (ac3 course_ids queue doms).map (fun kv => kv.1) = doms.map (fun kv => kv.1) := by
  induction queue, doms using ac3.induct course_ids with
  | case1 doms => simp [ac3]
  | case2 doms c1 c2 rest d1 d1' hlt hempty =>
    rw [ac3]
    split
    · exact setDom_keys doms c1 _
    · rename_i hc
      exact absurd hlt hc
  | case3 doms c1 c2 rest d1 d1' hlt doms' hempty ih =>
    rw [ac3]
    split
    · exact ih.trans (setDom_keys doms c1 _)
    · rename_i hc
      exact absurd hlt hc
  | case4 doms c1 c2 rest d1 d1' hlt ih =>
    rw [ac3]
    split
    · rename_i hc
      exact absurd hc hlt
    · exact ih

theorem dictSet_length (m : Domains) (k : String) (v : List Value) :
    (dictSet m k v).length ≤ m.length + 1 := by
  induction m with
  | nil => simp [dictSet]
  | cons kv0 rest ih =>
    obtain ⟨k0, d0⟩ := kv0
    simp only [dictSet]
    by_cases hk : k0 = k
    · rw [if_pos hk]
      simp
    · rw [if_neg hk]
      simp only [List.length_cons]
      omega

theorem init_domains_length (d : SchedData) :
    (init_domains d).length ≤ d.courses.length := by
  unfold init_domains
  have key : ∀ (cs : List Course) (acc : Domains),
      (cs.foldl (fun doms c => dictSet doms c.id (domainFor d c)) acc).length ≤
        acc.length + cs.length := by
    intro cs
    induction cs with
    | nil => intro acc; simp
    | cons c cs ih =>
      intro acc
      simp only [List.foldl_cons, List.length_cons]
      have h1 := ih (dictSet acc c.id (domainFor d c))
      have h2 := dictSet_length acc c.id (domainFor d c)
      omega
  simpa using key d.courses []

/-- The fuel the entry point supplies (number of courses plus one) is above
the recursion depth for every input, so the model computes exactly what the
unbounded Python recursion computes. -/
theorem solve_fuel_irrelevant (cfg : Config) (d : SchedData) (f : Nat)
    (hf : d.courses.length < f) :
    backtrack_search cfg d.courses.length f []
      (if cfg.use_arc_consistency then apply_arc_consistency (init_domains d)
       else init_domains d) = solve cfg d := by
  have hkeys : ((if cfg.use_arc_consistency then apply_arc_consistency (init_domains d)
      else init_domains d).map (fun kv => kv.1)).length ≤ d.courses.length := by
    have hlen := init_domains_length d
    split
    · unfold apply_arc_consistency
      rw [ac3_keys]
      simpa using hlen
    · simpa using hlen
  have hcount : unassignedCount []
      (if cfg.use_arc_consistency then apply_arc_consistency (init_domains d)
       else init_domains d) ≤ d.courses.length := by
    unfold unassignedCount
    refine le_trans (List.length_filter_le _ _) hkeys
  unfold solve
  dsimp only
  exact backtrack_search_fuel_irrelevant cfg d.courses.length (unassignedCount [] _)
    [] _ f (d.courses.length + 1) rfl (by omega) (by omega)

end CSP

example :
    (CSP.generate_schedule { use_arc_consistency := false } dataA).assignments =
      [{ id := "c1_p1_r1_t1", course_id := "c1", professor_id := "p1", room_id := "r1",
         time_slot_id := "t1" }] := by decide

example : (CSP.generate_schedule {} dataA).assignments.length = 1 := by
  simp [CSP.generate_schedule, CSP.solve, CSP.apply_arc_consistency, CSP.ac3,
    CSP.initialArcs]
  decide

example :
    CSP.generate_schedule { use_arc_consistency := false }
      { courses := [cA], professors := [], rooms := [rA], time_slots := [tA] } =
    CSP.failedSchedule := by decide

/-! ## Genetic-scheduler lemmas (schedulers/genetic.py) -/

namespace GA

/-- One generation never lowers the tracked best fitness: it is replaced
only by a strictly greater current best. -/
theorem step_best_fitness_mono {d : SchedData} {cfg : Config} {st st' : GState}
    (h : step d cfg st = some st') : st.best_fitness ≤ st'.best_fitness := by
  unfold step at h
  cases hpop : st.population with
  | nil => rw [hpop] at h; exact absurd h (by simp)
  | cons s rest =>
    rw [hpop] at h
    dsimp only at h
    rw [Option.some_inj] at h
    subst h
    dsimp only
    split
    · rename_i hc
      exact le_of_lt hc
    · exact le_refl _

/-- A generation step fails exactly on the empty population (the ValueError
of max on an empty sequence). -/
theorem step_none_iff {d : SchedData} {cfg : Config} {st : GState} :
    step d cfg st = none ↔ st.population = [] := by
  unfold step
  cases hpop : st.population with
  | nil => simp
  | cons s rest => simp

theorem breed_length (d : SchedData) (cfg : Config) (pop : List Schedule)
    (fits : List ℚ) :
    ∀ (need : Nat) (acc : List Schedule) (rng : Rng),
      (breed d cfg pop fits need acc rng).1.length = acc.length + need := by
  intro need
  induction need with
  | zero => intro acc rng; simp [breed]
  | succ need ih =>
    intro acc rng
    rw [breed]
    dsimp only
    rw [ih]
    simp
    omega

theorem select_and_reproduce_length (d : SchedData) (cfg : Config)
    (pop : List Schedule) (fits : List ℚ) (rng : Rng) :
    (select_and_reproduce d cfg pop fits rng).1.length = cfg.population_size := by
  unfold select_and_reproduce
  dsimp only
  rw [List.length_take, breed_length]
  have hlen : (List.map (fun i => pop.getD i default)
      ((stableSort (fun i j => fits.getD j 0 ≤ fits.getD i 0)
        (List.range pop.length)).take cfg.elite_size)).length ≤ cfg.elite_size := by
    rw [List.length_map]
    exact le_trans (List.length_take_le _ _) (le_refl _)
  omega

theorem step_population_length {d : SchedData} {cfg : Config} {st st' : GState}
    (h : step d cfg st = some st') : st'.population.length = cfg.population_size := by
  unfold step at h
  cases hpop : st.population with
  | nil => rw [hpop] at h; exact absurd h (by simp)
  | cons s rest =>
    rw [hpop] at h
    dsimp only at h
    rw [Option.some_inj] at h
    subst h
    exact select_and_reproduce_length d cfg _ _ _

theorem init_population_length (d : SchedData) (cfg : Config) (rng : Rng) :
    (init_population d cfg rng).1.length = cfg.population_size := by
  unfold init_population
  have key : ∀ (l : List Nat) (acc : List Schedule × Rng),
      (l.foldl (fun acc i =>
        let res := create_random_schedule d ("individual_" ++ toString i) acc.2
        (acc.1 ++ [res.1], res.2)) acc).1.length = acc.1.length + l.length := by
    intro l
    induction l with
    | nil => intro acc; simp
    | cons x xs ih =>
      intro acc
      simp only [List.foldl_cons]
      rw [ih]
      simp
      omega
  have := key (List.range cfg.population_size) ([], rng)
  simpa using this

/-- With a positive population size every generation succeeds and keeps the
population size. -/
theorem genSteps_some (d : SchedData) (cfg : Config) (rng : Rng)
    (hpos : 1 ≤ cfg.population_size) :
    ∀ g, ∃ st, genSteps d cfg rng g = some st ∧
      st.population.length = cfg.population_size := by
  intro g
  induction g with
  | zero =>
    refine ⟨initState d cfg rng, rfl, ?_⟩
    unfold initState
    dsimp only
    exact init_population_length d cfg rng
  | succ g ih =>
    obtain ⟨st, hst, hlen⟩ := ih
    have hne : st.population ≠ [] := by
      intro hc
      rw [hc] at hlen
      simp at hlen
      omega
    cases hstep : step d cfg st with
    | none => exact absurd (step_none_iff.1 hstep) hne
    | some st' =>
      refine ⟨st', ?_, step_population_length hstep⟩
      rw [genSteps, hst]
      exact hstep

/-- With population size zero and at least one generation, the loop raises
at its first iteration. -/
theorem genSteps_none (d : SchedData) (cfg : Config) (rng : Rng)
    (hzero : cfg.population_size = 0) :
    ∀ g, 1 ≤ g → genSteps d cfg rng g = none := by
  intro g
  induction g with
  | zero => intro h; omega
  | succ g ih =>
    intro _
    rw [genSteps]
    cases hg : g with
    | zero =>
      subst hg
      show step d cfg (initState d cfg rng) = none
      rw [step_none_iff]
      unfold initState
      dsimp only
      have := init_population_length d cfg rng
      rw [hzero] at this
      exact List.length_eq_zero.1 this
    | succ g' =>
      rw [← hg, ih (by omega)]
      rfl

/-- The tracked best fitness is non-decreasing between consecutive
generations. -/
theorem bestFitAfter_mono (d : SchedData) (cfg : Config) (rng : Rng) (g : Nat)
    (a b : WithBot ℚ) (ha : bestFitAfter d cfg rng g = some a)
    (hb : bestFitAfter d cfg rng (g + 1) = some b) : a ≤ b := by
  unfold bestFitAfter at ha hb
  cases hg : genSteps (preprocess_data d) cfg rng g with
  | none => rw [hg] at ha; simp at ha
  | some st =>
    rw [hg] at ha
    have ha' : st.best_fitness = a := by simpa using ha
    rw [genSteps, hg] at hb
    have hb2 : Option.map (fun st => st.best_fitness) (step (preprocess_data d) cfg st) =
        some b := by simpa using hb
    cases hstep : step (preprocess_data d) cfg st with
    | none => rw [hstep] at hb2; simp at hb2
    | some st' =>
      rw [hstep] at hb2
      have hb' : st'.best_fitness = b := by simpa using hb2
      rw [← ha', ← hb']
      exact step_best_fitness_mono hstep

/-- The return-value analysis of GeneticScheduler.generate_schedule: none
(the ValueError) exactly on an empty population with at least one
generation; otherwise the tracked best when it has assignments, the empty
sentinel when the tracked best is absent or empty. -/
theorem generate_schedule_cases (cfg : Config) (d : SchedData) (rng : Rng) :
    (generate_schedule cfg d rng = none ↔
      cfg.population_size = 0 ∧ 1 ≤ cfg.generations) ∧
    (∀ s, generate_schedule cfg d rng = some s →
      (s = emptySchedule ∧
        (trackedBest d cfg rng = none ∨
          ∃ e, trackedBest d cfg rng = some e ∧ e.assignments = [])) ∨
      (s.assignments ≠ [] ∧ trackedBest d cfg rng = some s)) := by
  constructor
  · constructor
    · intro h
      unfold generate_schedule at h
      dsimp only at h
      cases hg : genSteps (preprocess_data d) cfg rng cfg.generations with
      | some st => rw [hg] at h; simp at h
      | none =>
        constructor
        · by_contra hpos
          obtain ⟨st, hst, _⟩ := genSteps_some (preprocess_data d) cfg rng (by omega)
            cfg.generations
          rw [hst] at hg
          simp at hg
        · by_contra hgen
          have hzero : cfg.generations = 0 := by omega
          rw [hzero] at hg
          simp [genSteps] at hg
    · rintro ⟨hzero, hgen⟩
      unfold generate_schedule
      dsimp only
      rw [genSteps_none (preprocess_data d) cfg rng hzero cfg.generations hgen]
  · intro s h
    unfold generate_schedule at h
    dsimp only at h
    cases hg : genSteps (preprocess_data d) cfg rng cfg.generations with
    | none => rw [hg] at h; simp at h
    | some st =>
      rw [hg] at h
      simp only [Option.some_inj] at h
      have htb : trackedBest d cfg rng = st.best_schedule := by
        unfold trackedBest
        rw [hg]
        rfl
      cases hbest : st.best_schedule with
      | none =>
        rw [hbest] at h
        have h2 : emptySchedule = s := h
        left
        exact ⟨h2.symm, Or.inl (htb.trans hbest)⟩
      | some b =>
        rw [hbest] at h
        have h2 : (if b.assignments.isEmpty = true then emptySchedule else b) = s := h
        by_cases hbe : b.assignments.isEmpty = true
        · rw [if_pos hbe] at h2
          left
          refine ⟨h2.symm, Or.inr ⟨b, htb.trans hbest, ?_⟩⟩
          simpa using hbe
        · rw [if_neg hbe] at h2
          right
          subst h2
          exact ⟨by simpa using hbe, htb.trans hbest⟩

end GA

/-! ## The claims -/

/-- C1: for every input collection and configuration, whenever
ConstraintSatisfactionScheduler.generate_schedule returns a schedule with
at least one assignment, has_conflicts on that schedule returns false. -/
theorem claim_C1 (cfg : CSP.Config) (d : SchedData)
    (h : (CSP.generate_schedule cfg d).assignments ≠ []) :
    (CSP.generate_schedule cfg d).has_conflicts = false :=
  CSP.generate_schedule_no_conflicts cfg d h

theorem claim_C1_witness :
    (CSP.generate_schedule cfgCSP dataA).assignments ≠ [] ∧
    (CSP.generate_schedule cfgCSP dataA).has_conflicts = false :=
  ⟨by decide, claim_C1 cfgCSP dataA (by decide)⟩

/-- C2: has_conflicts is true iff two distinct assignments share a
time_slot_id and also a professor_id or a room_id; in particular such a
pair forces has_conflicts and a conflict count of at least 1. -/
theorem claim_C2 (s : Schedule) :
    (s.has_conflicts = true ↔ hasConflictPair s) ∧
    (hasConflictPair s → s.has_conflicts = true ∧ 1 ≤ s.get_conflict_count) :=
  ⟨has_conflicts_iff s,
   fun h => ⟨(has_conflicts_iff s).2 h, conflict_count_pos s h⟩⟩

theorem claim_C2_witness :
    hasConflictPair sConf ∧ sConf.has_conflicts = true ∧ 1 ≤ sConf.get_conflict_count := by
  have hpair : hasConflictPair sConf :=
    ⟨0, 1, by decide, by decide, by decide, by decide, Or.inl (by decide)⟩
  exact ⟨hpair, (claim_C2 sConf).2 hpair⟩

/-- C3: get_conflict_count equals the spec formula: the sum over the
occurring time_slot_ids of (group size minus distinct professors) plus
(group size minus distinct rooms), with the documented double counting. -/
theorem claim_C3 (s : Schedule) : s.get_conflict_count = specConflictCount s :=
  get_conflict_count_eq_spec s

/-- C4: under unique course ids, every triple placed in a course's initial
CSP domain names a professor, room and slot of the input that
simultaneously satisfy all the admission conditions: active professor with
matching department; available room with sufficient capacity, compatible
type and all recognized required features; active non-break non-lunch slot
of sufficient duration, suitable for the course type, and blocked neither
for the professor nor for the room. -/
theorem claim_C4 (d : SchedData) (hnd : (d.courses.map (fun c => c.id)).Nodup)
    (c : Course) (hc : c ∈ d.courses) (v : CSP.Value)
    (hv : v ∈ CSP.lookupDom (CSP.init_domains d) c.id) :
    ∃ p ∈ d.professors, ∃ r ∈ d.rooms, ∃ ts ∈ d.time_slots,
      v = (p.id, r.id, ts.id) ∧
      p.is_active = true ∧ p.department = c.branch ∧
      r.is_available = true ∧ c.capacity ≤ r.capacity ∧
      (c.course_type = CourseType.laboratory →
        r.room_type = RoomType.laboratory ∨ r.room_type = RoomType.computer_lab) ∧
      r.has_all_features (recognizedFeatures c.required_equipment) = true ∧
      ts.is_active = true ∧ ts.slot_type ≠ SlotType.brk ∧ ts.slot_type ≠ SlotType.lunch ∧
      ts.is_suitable_for_course_type c.course_type = true ∧
      c.duration ≤ ts.duration_minutes ∧
      ts.id ∉ p.unavailable_slots ∧ ts.id ∉ r.maintenance_slots :=
  CSP.init_domain_triple_sound d hnd c hc v hv

theorem claim_C4_witness :
    ("p1", "r1", "t1") ∈ CSP.lookupDom (CSP.init_domains dataA) cA.id ∧
    ∃ p ∈ dataA.professors, ∃ r ∈ dataA.rooms, ∃ ts ∈ dataA.time_slots,
      (("p1", "r1", "t1") : CSP.Value) = (p.id, r.id, ts.id) ∧
      p.is_active = true ∧ p.department = cA.branch ∧
      r.is_available = true ∧ cA.capacity ≤ r.capacity ∧
      (cA.course_type = CourseType.laboratory →
        r.room_type = RoomType.laboratory ∨ r.room_type = RoomType.computer_lab) ∧
      r.has_all_features (recognizedFeatures cA.required_equipment) = true ∧
      ts.is_active = true ∧ ts.slot_type ≠ SlotType.brk ∧ ts.slot_type ≠ SlotType.lunch ∧
      ts.is_suitable_for_course_type cA.course_type = true ∧
      cA.duration ≤ ts.duration_minutes ∧
      ts.id ∉ p.unavailable_slots ∧ ts.id ∉ r.maintenance_slots :=
  ⟨by decide, claim_C4 dataA (by decide) cA (by decide) ("p1", "r1", "t1") (by decide)⟩

/-- C5: whenever the backtracking search exhausts all branches without
completing an assignment (returns None), generate_schedule returns the
sentinel Schedule with id failed, name No Solution Found and no
assignments, rather than raising. -/
theorem claim_C5 (cfg : CSP.Config) (d : SchedData)
    (h : CSP.solve cfg (preprocess_data d) = none) :
    CSP.generate_schedule cfg d =
      { id := "failed", name := "No Solution Found", assignments := [],
        algorithm_used := none } :=
  CSP.generate_schedule_of_solve_none h

theorem claim_C5_witness :
    CSP.solve cfgCSP (preprocess_data dataNoProf) = none ∧
    CSP.generate_schedule cfgCSP dataNoProf =
      { id := "failed", name := "No Solution Found", assignments := [],
        algorithm_used := none } :=
  ⟨by decide, claim_C5 cfgCSP dataNoProf (by decide)⟩

/-- C6: the quality score is the average of the spec per-assignment scores
(1.0 + 0.2 x slot preference + 0.3 x professor preference + 0.2 x room
suitability) whenever every referenced entity resolves, is exactly 0.0 for
an empty assignment list, and is never negative for a conflict-free
schedule. -/
theorem claim_C6 (s : Schedule) (ts : List TimeSlot) (ps : List Professor)
    (rs : List Room) (cs : List Course) :
    (s.assignments = [] → calculate_schedule_quality s ts ps rs cs = 0) ∧
    (s.has_conflicts = false → 0 ≤ calculate_schedule_quality s ts ps rs cs) ∧
    ((∀ a ∈ s.assignments,
        (ts.find? (fun x => x.id = a.time_slot_id)).isSome = true ∧
        (ps.find? (fun x => x.id = a.professor_id)).isSome = true ∧
        (rs.find? (fun x => x.id = a.room_id)).isSome = true ∧
        (cs.find? (fun x => x.id = a.course_id)).isSome = true) →
      calculate_schedule_quality s ts ps rs cs = specQuality s ts ps rs cs) :=
  ⟨fun h => calculate_schedule_quality_empty s ts ps rs cs h,
   fun _ => calculate_schedule_quality_nonneg s ts ps rs cs,
   fun h => calculate_schedule_quality_eq_spec s ts ps rs cs h⟩

theorem claim_C6_witness :
    (calculate_schedule_quality sEmptyW [tA] [pA] [rA] [cA] = 0) ∧
    (0 ≤ calculate_schedule_quality sQW [tA] [pA] [rA] [cA]) ∧
    (calculate_schedule_quality sQW [tA] [pA] [rA] [cA] =
      specQuality sQW [tA] [pA] [rA] [cA]) :=
  ⟨(claim_C6 sEmptyW [tA] [pA] [rA] [cA]).1 rfl,
   (claim_C6 sQW [tA] [pA] [rA] [cA]).2.1 (by decide),
   (claim_C6 sQW [tA] [pA] [rA] [cA]).2.2 (by decide)⟩

/-- C7 counterexample: the genetic scheduler filters candidate slots only
by is_active, so on an input whose only slot is an active LUNCH slot it
returns a schedule assigning the course to that lunch slot — refuting the
claim that neither solver ever references a BREAK or LUNCH slot. -/
theorem claim_C7_counterexample :
    (GA.generate_schedule cfgGA1 dataLunch rng0).map
      (fun s => s.assignments.map (fun a => a.time_slot_id)) = some ["tl"] ∧
    tLunch ∈ dataLunch.time_slots ∧ tLunch.id = "tl" ∧
    tLunch.slot_type = SlotType.lunch ∧ tLunch.is_active = true := by
  refine ⟨by decide, by decide, by decide, by decide, by decide⟩

/-- C7 (amended to the CSP scheduler, which the code does guarantee): under
unique slot ids, every assignment in a schedule returned by
ConstraintSatisfactionScheduler.generate_schedule references a time slot
whose slot_type is neither BREAK nor LUNCH. -/
theorem claim_C7 (cfg : CSP.Config) (d : SchedData)
    (hnd : (d.time_slots.map (fun ts => ts.id)).Nodup) :
    ∀ a ∈ (CSP.generate_schedule cfg d).assignments,
      ∀ ts ∈ d.time_slots, ts.id = a.time_slot_id →
        ts.slot_type ≠ SlotType.brk ∧ ts.slot_type ≠ SlotType.lunch := by
  intro a ha ts hts hid
  obtain ⟨ts', hts', hid', _, hbrk, hlunch⟩ :=
    CSP.generate_schedule_slotOk cfg d a ha
  have : ts = ts' := List.inj_on_of_nodup_map hnd hts hts' (hid.trans hid'.symm)
  exact this ▸ ⟨hbrk, hlunch⟩

theorem claim_C7_witness :
    asgA ∈ (CSP.generate_schedule cfgCSP dataA).assignments ∧
    tA.slot_type ≠ SlotType.brk ∧ tA.slot_type ≠ SlotType.lunch :=
  ⟨by decide, claim_C7 cfgCSP dataA (by decide) asgA (by decide) tA (by decide) (by decide)⟩

/-- C8: across the generational loop of GeneticScheduler.generate_schedule
the tracked best fitness never decreases: after generation g+1 it is at
least the value after generation g, for every input, configuration and
random stream. -/
theorem claim_C8 (d : SchedData) (cfg : GA.Config) (rng : GA.Rng) (g : Nat)
    (a b : WithBot ℚ) (ha : GA.bestFitAfter d cfg rng g = some a)
    (hb : GA.bestFitAfter d cfg rng (g + 1) = some b) : a ≤ b :=
  GA.bestFitAfter_mono d cfg rng g a b ha hb

theorem claim_C8_witness :
    GA.bestFitAfter dataEmpty cfgGA1 rng0 0 = some ⊥ ∧
    GA.bestFitAfter dataEmpty cfgGA1 rng0 1 = some ((0 : ℚ) : WithBot ℚ) ∧
    (⊥ : WithBot ℚ) ≤ ((0 : ℚ) : WithBot ℚ) :=
  ⟨by decide, by decide,
   claim_C8 dataEmpty cfgGA1 rng0 0 ⊥ ((0 : ℚ) : WithBot ℚ) (by decide) (by decide)⟩

/-- C9 counterexample: with an empty population (population_size 0) and one
generation, GeneticScheduler.generate_schedule raises ValueError (max of an
empty sequence, modelled by none) instead of returning the sentinel
Schedule with id empty that the claim promises. -/
theorem claim_C9_counterexample :
    GA.generate_schedule cfgGA0 dataLunch rng0 = none ∧
    GA.generate_schedule cfgGA0 dataLunch rng0 ≠ some GA.emptySchedule := by
  refine ⟨by decide, by decide⟩

/-- C9 (amended): generate_schedule raises (none) exactly when the
population is empty and at least one generation runs; otherwise it returns
the tracked best individual when that individual has at least one
assignment, and the explicit empty sentinel Schedule with id empty when the
tracked best is absent or has no assignments. -/
theorem claim_C9 (cfg : GA.Config) (d : SchedData) (rng : GA.Rng) :
    (GA.generate_schedule cfg d rng = none ↔
      cfg.population_size = 0 ∧ 1 ≤ cfg.generations) ∧
    (∀ s, GA.generate_schedule cfg d rng = some s →
      (s = GA.emptySchedule ∧
        (GA.trackedBest d cfg rng = none ∨
          ∃ e, GA.trackedBest d cfg rng = some e ∧ e.assignments = [])) ∨
      (s.assignments ≠ [] ∧ GA.trackedBest d cfg rng = some s)) :=
  GA.generate_schedule_cases cfg d rng

theorem claim_C9_witness :
    GA.generate_schedule cfgGA0 dataEmpty rng0 = none ∧
    cfgGA0.population_size = 0 ∧ 1 ≤ cfgGA0.generations :=
  ⟨(claim_C9 cfgGA0 dataEmpty rng0).1.mpr ⟨rfl, by decide⟩, rfl, by decide⟩

/-- C10: with an empty course list the backtracking search returns the
complete empty solution map, which the truthiness test treats as falsy, so
generate_schedule returns the failed sentinel rather than an empty
successful schedule. -/
theorem claim_C10 (cfg : CSP.Config) (ps : List Professor) (rs : List Room)
    (ts : List TimeSlot) :
    CSP.solve cfg (preprocess_data ⟨[], ps, rs, ts⟩) = some [] ∧
    CSP.generate_schedule cfg ⟨[], ps, rs, ts⟩ = CSP.failedSchedule :=
  ⟨CSP.solve_empty_courses cfg ps rs ts,
   CSP.generate_schedule_of_solve_empty (CSP.solve_empty_courses cfg ps rs ts)⟩

end Timetable
